import Mathlib

/-!
Verification of the adoptable-dogs lambda (src/lambda/main.py) against its
natural-language specification.

The Python program is shallowly embedded: strings are `List Char`, the
BeautifulSoup document tree is the inductive `Html`, network and mail
collaborators are parameters (`Network`), and the regular-expression
searches of the source are embedded as explicit left-to-right scanners
with the same matching semantics (leftmost match, greedy runs).  The
`\d` and `\s` character classes are modelled over ASCII, which is the
alphabet of every string the program manipulates.
-/

/-- ASCII model of the regex class `\d` used in `age_to_months`. -/
def isDigit (c : Char) : Bool := '0' ≤ c && c ≤ '9'

/-- ASCII model of the regex class `\s` and of the characters removed by
Python `str.strip()`. -/
def isWs (c : Char) : Bool :=
  c == ' ' || c == '\t' || c == '\n' || c == '\r' || c == '\x0b' || c == '\x0c'

/-- Value of a decimal digit string, as computed by Python `int(...)`
on the digits captured by a regex group. -/
def natOfDigits (ds : List Char) : Nat :=
  ds.foldl (fun a c => 10 * a + (c.toNat - 48)) 0

/-- Boolean list-prefix test (own definition, kept fully under our control
for unfolding in proofs). -/
def isPrefixB : List Char → List Char → Bool
  | [], _ => true
  | _ :: _, [] => false
  | a :: as, b :: bs => a == b && isPrefixB as bs

/-- Python `str.strip()`: drop whitespace from both ends. -/
def pyStrip (s : List Char) : List Char :=
  ((s.dropWhile isWs).reverse.dropWhile isWs).reverse

/-- Embedding of `re.search(r"(\d+)\s*" + tok, s)` followed by
`int(match.group(1))`: scan positions left to right; at a digit position
take the maximal digit run, then the maximal whitespace run, and require
the literal token `tok` to follow.  (For the patterns at hand,
backtracking inside `\d+` or `\s*` can never create a match that the
greedy runs miss, because neither a digit nor a whitespace character can
begin the token.) -/
def searchNumToken (tok : List Char) : List Char → Option Nat
  | [] => none
  | c :: rest =>
    if isDigit c then
      let ds := (c :: rest).takeWhile isDigit
      let after := ((c :: rest).dropWhile isDigit).dropWhile isWs
      if isPrefixB tok after then some (natOfDigits ds)
      else searchNumToken tok rest
    else searchNumToken tok rest

/-- `age_to_months` from src/lambda/main.py: the year regex
`(\d+)\s*year` and the month regex `(\d+)\s*month` are searched
independently, a missing match contributes 0, and the result is
`years * 12 + months`. -/
def age_to_months (age_text : List Char) : Nat :=
  let years := (searchNumToken "year".toList age_text).getD 0
  let months := (searchNumToken "month".toList age_text).getD 0
  years * 12 + months

/-- The single-quote character, written via its code point. -/
def quoteChar : Char := Char.ofNat 39

/-- Embedding of `re.search(lit-name + r"\('([^']+)'\)", s)` returning
group 1: scan for the literal `lit` (the function name and opening
`('`), take the maximal run of non-quote characters, and require a
closing quote and parenthesis.  Used for both the `poptastic` pattern of
`extract_detail_url` and the `loadPhoto` pattern of
`extract_image_urls`. -/
def searchCallArg (lit : List Char) : List Char → Option (List Char)
  | [] => none
  | c :: rest =>
    if isPrefixB lit (c :: rest) then
      let after := (c :: rest).drop lit.length
      let run := after.takeWhile (fun ch => !(ch == quoteChar))
      let rem := after.dropWhile (fun ch => !(ch == quoteChar))
      if !run.isEmpty && isPrefixB [quoteChar, ')'] rem then some run
      else searchCallArg lit rest
    else searchCallArg lit rest

/-- The literal `poptastic('` of the regex in `extract_detail_url`. -/
def poptasticLit : List Char := "poptastic(".toList ++ [quoteChar]

/-- The literal `loadPhoto('` of the regex in `extract_image_urls`. -/
def loadPhotoLit : List Char := "loadPhoto(".toList ++ [quoteChar]

/-- `BASE_URL` constant of src/lambda/main.py. -/
def BASE_URL : List Char :=
  "https://ws.petango.com/webservices/adoptablesearch/".toList

/-- `MAX_AGE_MONTHS` constant of src/lambda/main.py. -/
def MAX_AGE_MONTHS : Nat := 6

/-- `extract_detail_url` from src/lambda/main.py: extract the relative
path from a `poptastic('...')` call and prepend `BASE_URL`; `none` when
the pattern does not match. -/
def extract_detail_url (js_href : List Char) : Option (List Char) :=
  match searchCallArg poptasticLit js_href with
  | none => none
  | some relative_url => some (BASE_URL ++ relative_url)

/-- Python `str.replace(pat, rep)`: replace every occurrence of `pat`,
scanning left to right, non-overlapping.  Defined with a fuel argument
(the length of the string suffices) so that it is structural and reduces
inside the kernel. -/
def replaceAllAux (pat rep : List Char) : Nat → List Char → List Char
  | 0, s => s
  | _ + 1, [] => []
  | fuel + 1, c :: rest =>
    if isPrefixB pat (c :: rest) then
      rep ++ replaceAllAux pat rep fuel ((c :: rest).drop pat.length)
    else
      c :: replaceAllAux pat rep fuel rest

/-- Python `s.replace(pat, rep)` for a non-empty pattern. -/
def replaceAll (pat rep s : List Char) : List Char :=
  replaceAllAux pat rep s.length s

/-- The parsed document tree produced by BeautifulSoup: an element with
a tag name, an attribute list (attribute dictionaries have unique keys;
we read the first entry of a key) and children, or a text node. -/
inductive Html where
  | elem (tag : List Char) (attrs : List (List Char × List Char)) (children : List Html)
  | text (s : List Char)

/-- Attributes of a node (empty for text nodes). -/
def attrsOf : Html → List (List Char × List Char)
  | .elem _ a _ => a
  | .text _ => []

/-- Children of a node (empty for text nodes). -/
def childrenOf : Html → List Html
  | .elem _ _ c => c
  | .text _ => []

/-- Read an attribute: first entry with the given key (`tag.get(key)` /
`tag[key]`). -/
def getAttr : List (List Char × List Char) → List Char → Option (List Char)
  | [], _ => none
  | (k, v) :: rest, key => if k = key then some v else getAttr rest key

/-- Write an attribute in place (`tag[key] = val`): replace the value of
the first entry with the given key. -/
def setAttr : List (List Char × List Char) → List Char → List Char → List (List Char × List Char)
  | [], _, _ => []
  | (k, v) :: rest, key, val =>
    if k = key then (k, val) :: rest else (k, v) :: setAttr rest key val

/-- Tag filter of BeautifulSoup `find`/`find_all` (text nodes never
match a name filter). -/
def hasTagB (t : List Char) : Html → Bool
  | .elem tg _ _ => tg = t
  | .text _ => false

/-- `id=...` filter of BeautifulSoup `find`: any element whose `id`
attribute equals the given string. -/
def hasIdB (i : List Char) : Html → Bool
  | .elem _ a _ =>
    match getAttr a "id".toList with
    | some v => v = i
    | none => false
  | .text _ => false

/-- Python `str.split()` with no separator: split on whitespace runs,
dropping empty pieces (BeautifulSoup uses this to give the multi-valued
`class` attribute). -/
def splitWsAux : List Char → List Char → List (List Char)
  | [], acc => if acc.isEmpty then [] else [acc.reverse]
  | c :: rest, acc =>
    if isWs c then
      if acc.isEmpty then splitWsAux rest [] else acc.reverse :: splitWsAux rest []
    else splitWsAux rest (c :: acc)

/-- Whitespace split, see `splitWsAux`. -/
def splitWs (s : List Char) : List (List Char) := splitWsAux s []

/-- `class_=...` filter of BeautifulSoup `find`: the element's `class`
attribute, split on whitespace, contains the requested class. -/
def hasClassB (cls : List Char) : Html → Bool
  | .elem _ a _ =>
    match getAttr a "class".toList with
    | some v => (splitWs v).contains cls
    | none => false
  | .text _ => false

mutual

/-- BeautifulSoup `find` over a whole document: first node, in document
(preorder) order and including the root, satisfying the filter. -/
def findNode (p : Html → Bool) : Html → Option Html
  | .text s => if p (.text s) then some (.text s) else none
  | .elem t a c => if p (.elem t a c) then some (.elem t a c) else findForest p c

/-- `find` over a list of sibling trees; `findForest p (childrenOf tag)`
is BeautifulSoup `tag.find(...)` (descendants only). -/
def findForest (p : Html → Bool) : List Html → Option Html
  | [] => none
  | x :: xs =>
    match findNode p x with
    | some r => some r
    | none => findForest p xs

end

mutual

/-- BeautifulSoup `find_all` over a whole document: every node, in
document (preorder) order and including the root, satisfying the
filter. -/
def collectNode (p : Html → Bool) : Html → List Html
  | .text s => if p (.text s) then [.text s] else []
  | .elem t a c =>
    (if p (.elem t a c) then [.elem t a c] else []) ++ collectForest p c

/-- `find_all` over sibling trees; `collectForest p (childrenOf tag)` is
BeautifulSoup `tag.find_all(...)` (descendants only). -/
def collectForest (p : Html → Bool) : List Html → List Html
  | [] => []
  | x :: xs => collectNode p x ++ collectForest p xs

end

mutual

/-- The text-node strings of a subtree, in document order. -/
def textsNode : Html → List (List Char)
  | .text s => [s]
  | .elem _ _ c => textsForest c

/-- Text-node strings of sibling trees. -/
def textsForest : List Html → List (List Char)
  | [] => []
  | x :: xs => textsNode x ++ textsForest xs

end

/-- `element.get_text(strip=True)`: concatenation of all descendant
strings, each stripped of surrounding whitespace. -/
def get_text (n : Html) : List Char := ((textsNode n).map pyStrip).flatten

/-- `get_text_by_id` from src/lambda/main.py: text of the element with
the given id, or `none` when the element is missing. -/
def get_text_by_id (soup : Html) (element_id : List Char) : Option (List Char) :=
  match findNode (hasIdB element_id) soup with
  | some element => some (get_text element)
  | none => none

/-- Python `x or default` for an optional string: `None` and the empty
string are falsy, so both fall back to the default. -/
def orDefault (o : Option (List Char)) (d : List Char) : List Char :=
  match o with
  | some s => if s.isEmpty then d else s
  | none => d

/-- The per-src rewriting performed by `fix_relative_image_urls`: a src
starting with `../` becomes `https://ws.petango.com/` plus the src with
every occurrence of `../` removed (Python `str.replace`); a src
starting with `images/` is prefixed with `base_url`; anything else is
left unchanged. -/
def rewriteSrc (base_url src : List Char) : List Char :=
  if isPrefixB "../".toList src then
    "https://ws.petango.com/".toList ++ replaceAll "../".toList [] src
  else if isPrefixB "images/".toList src then
    base_url ++ src
  else src

/-- The attribute update of one `img` in `fix_relative_image_urls`:
imgs with a missing or empty (falsy) `src` are skipped. -/
def fixImgSrcAttrs (base_url : List Char) (a : List (List Char × List Char)) :
    List (List Char × List Char) :=
  match getAttr a "src".toList with
  | none => a
  | some src =>
    if src.isEmpty then a
    else setAttr a "src".toList (rewriteSrc base_url src)

mutual

/-- Apply the img-src rewriting to a node and all its descendants. -/
def fixNode (base_url : List Char) : Html → Html
  | .text s => .text s
  | .elem t a c =>
    .elem t (if t = "img".toList then fixImgSrcAttrs base_url a else a)
      (fixForest base_url c)

/-- Apply the img-src rewriting to every tree of a forest. -/
def fixForest (base_url : List Char) : List Html → List Html
  | [] => []
  | x :: xs => fixNode base_url x :: fixForest base_url xs

end

/-- `fix_relative_image_urls` from src/lambda/main.py: rewrite the src
of every `img` among the strict descendants of `layout_div`
(`layout_div.find_all("img")`), mutating the tree in place — modelled as
returning the rewritten tree. -/
def fix_relative_image_urls (layout_div : Html) (base_url : List Char) : Html :=
  match layout_div with
  | .text s => .text s
  | .elem t a c => .elem t a (fixForest base_url c)

mutual

/-- The in-place mutation of the document performed by
`fetch_dog_details`: the first element (in document order) with id
`DefaultLayoutDiv` is replaced by its image-fixed version.  The flag
records whether such an element was found. -/
def fixDocNode : Html → Bool × Html
  | .text s => (false, .text s)
  | .elem t a c =>
    if hasIdB "DefaultLayoutDiv".toList (.elem t a c) then
      (true, fix_relative_image_urls (.elem t a c) BASE_URL)
    else
      match fixDocForest c with
      | (b, c2) => (b, .elem t a c2)

/-- See `fixDocNode`. -/
def fixDocForest : List Html → Bool × List Html
  | [] => (false, [])
  | x :: xs =>
    match fixDocNode x with
    | (true, x2) => (true, x2 :: xs)
    | (false, _) =>
      match fixDocForest xs with
      | (b, xs2) => (b, x :: xs2)

end

/-- The anchor filter `find_all("a", onclick=re.compile(r"loadPhoto\\(...")`:
an `a` element whose `onclick` attribute exists and matches the
`loadPhoto` pattern. -/
def isLoadPhotoAnchor (n : Html) : Bool :=
  hasTagB "a".toList n &&
    (match getAttr (attrsOf n) "onclick".toList with
     | some o => (searchCallArg loadPhotoLit o).isSome
     | none => false)

/-- `extract_image_urls` from src/lambda/main.py: the main photo's src
(when the element exists and its src is truthy) followed by every
`loadPhoto('...')` argument found in anchor onclick handlers, in
document order, skipping duplicates. -/
def extract_image_urls (soup : Html) : List (List Char) :=
  let image_urls :=
    match findNode (hasIdB "imgAnimalPhoto".toList) soup with
    | some main_img =>
      match getAttr (attrsOf main_img) "src".toList with
      | some s => if s.isEmpty then [] else [s]
      | none => []
    | none => []
  (collectNode isLoadPhotoAnchor soup).foldl
    (fun acc link =>
      match getAttr (attrsOf link) "onclick".toList with
      | some o =>
        match searchCallArg loadPhotoLit o with
        | some img_url => if img_url ∈ acc then acc else acc ++ [img_url]
        | none => acc
      | none => acc)
    image_urls

/-- The record built by `fetch_dog_details` (`layout_html` holds the
rewritten container subtree; its serialization by `str(...)` is not
modelled). -/
structure DogDetails where
  name : List Char
  id : List Char
  breed : List Char
  age : List Char
  gender : List Char
  size : List Char
  color : List Char
  detail_url : List Char
  image_urls : List (List Char)
  layout_html : Html

/-- `fetch_dog_details` from src/lambda/main.py, after the network fetch
and HTML parse (`doc` is the parsed detail page): `none` when
`DefaultLayoutDiv` is absent; otherwise the document is mutated by
`fix_relative_image_urls` on the layout div and the record is assembled
from the mutated document. -/
def fetch_dog_details (detail_url dog_name : List Char) (doc : Html) : Option DogDetails :=
  match findNode (hasIdB "DefaultLayoutDiv".toList) doc with
  | none => none
  | some layout_div =>
    let soup := (fixDocNode doc).2
    some {
      name := orDefault (get_text_by_id soup "lbName".toList) dog_name
      id := orDefault (get_text_by_id soup "lblID".toList) "Unknown".toList
      breed := orDefault (get_text_by_id soup "lbBreed".toList) "Unknown".toList
      age := orDefault (get_text_by_id soup "lbAge".toList) "Unknown".toList
      gender := orDefault (get_text_by_id soup "lbSex".toList) "Unknown".toList
      size := orDefault (get_text_by_id soup "lblSize".toList) "Unknown".toList
      color := orDefault (get_text_by_id soup "lblColor".toList) "Unknown".toList
      detail_url := detail_url
      image_urls := extract_image_urls soup
      layout_html := fix_relative_image_urls layout_div BASE_URL }

mutual

/-- The `src` attribute values of every element of a subtree (used to
state where the image URLs of a record can come from). -/
def allSrcsNode : Html → List (List Char)
  | .text _ => []
  | .elem _ a c =>
    (match getAttr a "src".toList with | some s => [s] | none => []) ++ allSrcsForest c

/-- `src` attribute values over a forest. -/
def allSrcsForest : List Html → List (List Char)
  | [] => []
  | x :: xs => allSrcsNode x ++ allSrcsForest xs

end

/-- Every `loadPhoto('...')` argument of an anchor onclick handler in
the document. -/
def allLoadPhotoUrls (doc : Html) : List (List Char) :=
  (collectNode isLoadPhotoAnchor doc).filterMap
    (fun link =>
      match getAttr (attrsOf link) "onclick".toList with
      | some o => searchCallArg loadPhotoLit o
      | none => none)

/-- A URL with scheme and host present, in the sense of the spec's
invariant (every absolute URL the program constructs starts with one of
these schemes). -/
def isAbsoluteUrl (s : List Char) : Bool :=
  isPrefixB "https://".toList s || isPrefixB "http://".toList s

/-- Observable collaborator calls of one run, in order: the listing GET,
each detail GET, and the SES send. -/
inductive Effect where
  | getListing
  | getDetail (url : List Char)
  | sendEmail (source : List Char) (recipients : List (List Char)) (body : List Char)

/-- The external collaborators: the listing response (`error` = transport
exception, otherwise status code and parsed document), the detail fetch
per URL (`none` = request exception or non-2xx status, both caught in
`fetch_dog_details`), and the SES outcome (`some msg` = send_email
raised with message `msg`). -/
structure Network where
  listing : Except (List Char) (Nat × Html)
  detail : List Char → Option Html
  email : Option (List Char)

/-- One iteration of the `for dog in dogs` loop of
`fetch_and_filter_puppies`: missing age or name element, an age at or
above `MAX_AGE_MONTHS`, a missing anchor or falsy href, or an
unresolvable detail URL all skip the entry (`continue`); otherwise the
detail page is fetched and parsed. -/
def listing_step (net : Network) (dog : Html) : Option DogDetails × List Effect :=
  match findForest (hasClassB "list-animal-age".toList) (childrenOf dog),
        findForest (hasClassB "list-animal-name".toList) (childrenOf dog) with
  | some age_element, some name_element =>
    let age_text := get_text age_element
    let name := get_text name_element
    let total_months := age_to_months age_text
    if total_months ≥ MAX_AGE_MONTHS then (none, [])
    else
      match findForest (hasTagB "a".toList) (childrenOf dog) with
      | none => (none, [])
      | some link_element =>
        match getAttr (attrsOf link_element) "href".toList with
        | none => (none, [])
        | some href =>
          if href.isEmpty then (none, [])
          else
            match extract_detail_url href with
            | none => (none, [])
            | some detail_url =>
              match net.detail detail_url with
              | none => (none, [.getDetail detail_url])
              | some page => (fetch_dog_details detail_url name page, [.getDetail detail_url])
  | _, _ => (none, [])

/-- The whole `for` loop of `fetch_and_filter_puppies`: successful
records are appended in listing order, and the detail-fetch effects are
emitted in order. -/
def listing_loop (net : Network) : List Html → List DogDetails × List Effect
  | [] => ([], [])
  | dog :: dogs =>
    match listing_step net dog with
    | (r, e) =>
      match listing_loop net dogs with
      | (rs, es) => ((match r with | some d => d :: rs | none => rs), e ++ es)

/-- `fetch_and_filter_puppies` from src/lambda/main.py: a transport
error or non-200 status on the listing GET raises (`error`); otherwise
every `li` of the page goes through the loop. -/
def fetch_and_filter_puppies (net : Network) :
    Except (List Char) (List DogDetails) × List Effect :=
  match net.listing with
  | .error msg => (.error msg, [.getListing])
  | .ok (status_code, page) =>
    if status_code ≠ 200 then
      (.error ("Failed to fetch data: ".toList ++ (Nat.repr status_code).toList),
       [.getListing])
    else
      match listing_loop net (collectNode (hasTagB "li".toList) page) with
      | (filtered_puppies, effs) => (.ok filtered_puppies, .getListing :: effs)

/-- Helper for transcribing the Python HTML templates: `~` in the
template stands for a single-quote character. -/
def qz (s : String) : List Char :=
  s.toList.map (fun c => if c = '~' then quoteChar else c)

/-- `format_puppy_html` from src/lambda/main.py: one report section per
record. -/
def format_puppy_html (puppy : DogDetails) : List Char :=
  qz "\n    <div style=~margin-bottom:30px; border-bottom:1px solid #ccc; padding-bottom:20px;~>\n        <h2>"
    ++ puppy.name
    ++ qz "</h2>\n        <table style=~width:100%; border-collapse: collapse;~>\n            <tr><td style=~font-weight:bold;width:150px;~>ID:</td><td>"
    ++ puppy.id
    ++ qz "</td></tr>\n            <tr><td style=~font-weight:bold;~>Breed:</td><td>"
    ++ puppy.breed
    ++ qz "</td></tr>\n            <tr><td style=~font-weight:bold;~>Age:</td><td>"
    ++ puppy.age
    ++ qz "</td></tr>\n            <tr><td style=~font-weight:bold;~>Gender:</td><td>"
    ++ puppy.gender
    ++ qz "</td></tr>\n            <tr><td style=~font-weight:bold;~>Size:</td><td>"
    ++ puppy.size
    ++ qz "</td></tr>\n            <tr><td style=~font-weight:bold;~>Color:</td><td>"
    ++ puppy.color
    ++ qz "</td></tr>\n        </table>\n        <div style=~margin-top:15px;~>\n    "
    ++ (puppy.image_urls.map (fun img_url =>
          qz "<img src=~" ++ img_url ++ qz "~ style=~max-width:100%; margin:5px 0;~ /><br>")).flatten
    ++ qz "\n        </div>\n        <div style=~margin-top:10px;~>\n            <a href=~"
    ++ puppy.detail_url
    ++ qz "~ style=~background-color:#4CAF50; color:white; padding:10px 15px; text-decoration:none; display:inline-block; border-radius:4px;~>View Details</a>\n        </div>\n    </div>\n    "

/-- The non-empty email body template of `send_email_report` (braces of
the CSS are written with `\x7b`/`\x7d`). -/
def emailBodyHtml (puppies : List DogDetails) : List Char :=
  qz "\n        <html>\n        <head>\n            <style>\n                body \x7b font-family: Arial, sans-serif; \x7d\n                h1 \x7b color: #333366; \x7d\n                h2 \x7b color: #4CAF50; \x7d\n                table \x7b margin-bottom: 15px; \x7d\n                td \x7b padding: 5px; \x7d\n            </style>\n        </head>\n        <body>\n            <h1>Adoptable Puppies (< "
    ++ (Nat.repr MAX_AGE_MONTHS).toList
    ++ qz " Months) - "
    ++ (Nat.repr puppies.length).toList
    ++ qz " Found</h1>\n            "
    ++ ((puppies.map format_puppy_html).flatten)
    ++ qz "\n        </body>\n        </html>\n        "

/-- The fixed body sent when no puppy survived the filter. -/
def noPuppiesBody : List Char :=
  "<p>No puppies under 6 months found today.</p>".toList

/-- `send_email_report` from src/lambda/main.py: recipients are the
comma-split of `email_to`, the body is the empty-state paragraph or the
full report, the SES call is made, and an SES failure is re-raised. -/
def send_email_report (net : Network) (email_from email_to : List Char)
    (puppies : List DogDetails) : Except (List Char) Unit × List Effect :=
  let email_recipients := email_to.splitOn ','
  let body := if puppies.isEmpty then noPuppiesBody else emailBodyHtml puppies
  ((match net.email with
    | none => .ok ()
    | some msg => .error msg),
   [.sendEmail email_from email_recipients body])

/-- Truthiness of an optional environment variable: unset (`None`) and
the empty string are falsy. -/
def pyTruthy : Option (List Char) → Bool
  | none => false
  | some s => !s.isEmpty

/-- The environment configuration read by `lambda_handler`. -/
structure Env where
  email_from : Option (List Char)
  email_to : Option (List Char)

/-- The `{"statusCode": ..., "body": ...}` dictionary returned by
`lambda_handler`. -/
structure Response where
  statusCode : Nat
  body : List Char

/-- `lambda_handler` from src/lambda/main.py: missing or empty sender or
recipient raises `ValueError` (caught: status 400, before any
collaborator call); an uncaught fetch or send failure maps to status
500; otherwise status 200.  (`PuppyNotFoundError` is defined in the
source but never raised, so its 200 branch is dead code.) -/
def lambda_handler (env : Env) (net : Network) : Response × List Effect :=
  if !pyTruthy env.email_from || !pyTruthy env.email_to then
    (⟨400, "Email configuration missing. Check environment variables.".toList⟩, [])
  else
    match fetch_and_filter_puppies net with
    | (.error msg, effs) => (⟨500, msg⟩, effs)
    | (.ok puppies, effs) =>
      match send_email_report net (env.email_from.getD []) (env.email_to.getD []) puppies with
      | (.ok _, effs2) => (⟨200, "Email sent successfully!".toList⟩, effs ++ effs2)
      | (.error msg, effs2) => (⟨500, msg⟩, effs ++ effs2)

/-- The spec's `ListingSummary` (§3): name, raw age text, and the
resolved detail URL of one listing entry. -/
structure ListingSummary where
  name : List Char
  ageText : List Char
  detailUrl : List Char

/-- Spec-side stage 1 (§4.3 ListingExtractor, for the refinement claim):
extract every listing entry, dropping an item whose age or name element
is missing, whose anchor is missing, or whose link does not resolve. -/
def spec_extract_summaries (page : Html) : List ListingSummary :=
  (collectNode (hasTagB "li".toList) page).filterMap (fun item =>
    match findForest (hasClassB "list-animal-age".toList) (childrenOf item),
          findForest (hasClassB "list-animal-name".toList) (childrenOf item) with
    | some ageEl, some nameEl =>
      match findForest (hasTagB "a".toList) (childrenOf item) with
      | none => none
      | some anchor =>
        match getAttr (attrsOf anchor) "href".toList with
        | none => none
        | some href =>
          match extract_detail_url href with
          | none => none
          | some url => some ⟨get_text nameEl, get_text ageEl, url⟩
    | _, _ => none)

/-- Spec-side stage 2: keep the candidates strictly below the age
threshold. -/
def spec_filter_candidates (l : List ListingSummary) : List ListingSummary :=
  l.filter (fun s => age_to_months s.ageText < MAX_AGE_MONTHS)

/-- Spec-side stage 3: resolve details per surviving candidate, each
failure independent. -/
def spec_resolve_details (net : Network) (l : List ListingSummary) : List DogDetails :=
  l.filterMap (fun s =>
    match net.detail s.detailUrl with
    | none => none
    | some page => fetch_dog_details s.detailUrl s.name page)

/-- The spec's staged pipeline: extract all summaries, filter by age,
then resolve details. -/
def spec_staged_pipeline (net : Network) (page : Html) : List DogDetails :=
  spec_resolve_details net (spec_filter_candidates (spec_extract_summaries page))

/-- The string contains a `(\d+)\s*tok` match: some position starts a
non-empty digit run, then optional whitespace, then the literal token.
(Spec-side characterisation of "the string contains a `<N> tok` token",
independent of the scanner.) -/
def containsNumToken (tok s : List Char) : Prop :=
  ∃ pre ds ws suf, s = pre ++ ds ++ ws ++ tok ++ suf ∧ ds ≠ [] ∧
    (∀ c ∈ ds, isDigit c = true) ∧ (∀ c ∈ ws, isWs c = true)

/-- The string contains a `lit‹arg›')` call pattern with a non-empty,
quote-free argument (spec-side characterisation of "contains a call of
the shape `poptastic('<relative-path>')`"). -/
def containsCallArg (lit s : List Char) : Prop :=
  ∃ pre arg suf, s = pre ++ lit ++ arg ++ [quoteChar, ')'] ++ suf ∧ arg ≠ [] ∧
    (∀ c ∈ arg, (c == quoteChar) = false)

/-- The `loadPhoto` URL carried by a node's `onclick` attribute, if
any. -/
def extractOnclick (link : Html) : Option (List Char) :=
  match getAttr (attrsOf link) "onclick".toList with
  | some o => searchCallArg loadPhotoLit o
  | none => none

/-- The `src` values of the `img` descendants of a container (the
sources visited by `fix_relative_image_urls`). -/
def imgSrcs (div : Html) : List (List Char) :=
  (collectForest (hasTagB "img".toList) (childrenOf div)).filterMap
    (fun im => getAttr (attrsOf im) "src".toList)

/-- The per-src effect of `fix_relative_image_urls` including the skip
of falsy sources. -/
def fixedSrc (base_url s : List Char) : List Char :=
  if s.isEmpty then s else rewriteSrc base_url s

/-- A dummy record (used only to name the record produced on a concrete
input via `Option.getD`). -/
def defaultRec : DogDetails :=
  ⟨[], [], [], [], [], [], [], [], [], .text []⟩

-- Concrete inputs for witnesses and counterexamples.

/-- A detail page whose main photo has a relative src of a shape the
fixer does not rewrite. -/
def c1doc : Html :=
  .elem "html".toList [] [
    .elem "div".toList [("id".toList, "DefaultLayoutDiv".toList)] [
      .elem "img".toList
        [("id".toList, "imgAnimalPhoto".toList), ("src".toList, "photo.jpg".toList)] []]]

/-- The record `fetch_dog_details` produces on `c1doc`. -/
def c1rec : DogDetails :=
  (fetch_dog_details "u".toList "Rex".toList c1doc).getD defaultRec

/-- A layout container holding one img whose src starts with two `../`
markers. -/
def c3div : Html :=
  .elem "div".toList [("id".toList, "DefaultLayoutDiv".toList)] [
    .elem "img".toList [("src".toList, "../../a.jpg".toList)] []]

/-- A string containing the `poptastic` pattern, in decomposed form. -/
def c5s : List Char :=
  "onclick=".toList ++ poptasticLit ++ "Detail.aspx?id=5".toList ++ [quoteChar, ')'] ++ []

/-- A listing entry aged exactly six months. -/
def c6dog6 : Html :=
  .elem "li".toList [] [
    .elem "span".toList [("class".toList, "list-animal-age".toList)] [.text "6 months".toList],
    .elem "span".toList [("class".toList, "list-animal-name".toList)] [.text "Hexa".toList]]

/-- The href used by `c6dog5`. -/
def sanHrefC6 : List Char :=
  "javascript:poptastic(".toList ++ [quoteChar] ++ "d6.aspx".toList ++ [quoteChar] ++ ")".toList

/-- A listing entry aged five months with a resolvable link. -/
def c6dog5 : Html :=
  .elem "li".toList [] [
    .elem "span".toList [("class".toList, "list-animal-age".toList)] [.text "5 months".toList],
    .elem "span".toList [("class".toList, "list-animal-name".toList)] [.text "Penta".toList],
    .elem "a".toList [("href".toList, sanHrefC6)] []]

/-- A minimal detail page: just the layout container. -/
def c6page : Html :=
  .elem "html".toList [] [
    .elem "div".toList [("id".toList, "DefaultLayoutDiv".toList)] []]

/-- A network whose detail fetches all return `c6page`. -/
def c6net : Network :=
  { listing := .ok (200, .elem "ul".toList [] [c6dog6, c6dog5]),
    detail := fun _ => some c6page, email := none }

/-- The record resolved for `c6dog5`. -/
def c6rec : DogDetails :=
  (fetch_dog_details (BASE_URL ++ "d6.aspx".toList) "Penta".toList c6page).getD defaultRec

/-- An environment with the sender address missing. -/
def c8env : Env := ⟨none, some "to@x.y".toList⟩

/-- An inert network (any collaborator call would be visible in the
trace). -/
def c8net : Network :=
  { listing := .error "unreachable".toList, detail := fun _ => none, email := none }

/-- A fully configured environment. -/
def c9env : Env := ⟨some "from@x.y".toList, some "to@x.y".toList⟩

/-- A network whose listing page contains no entries and whose mail call
succeeds. -/
def c9net : Network :=
  { listing := .ok (200, .elem "html".toList [] []), detail := fun _ => none, email := none }

/-- A detail page whose breed and name labels exist but hold only
whitespace. -/
def c10doc : Html :=
  .elem "html".toList [] [
    .elem "div".toList [("id".toList, "DefaultLayoutDiv".toList)] [
      .elem "span".toList [("id".toList, "lbBreed".toList)] [.text "   ".toList],
      .elem "span".toList [("id".toList, "lbName".toList)] []]]

/-- The record `fetch_dog_details` produces on `c10doc`. -/
def c10rec : DogDetails :=
  (fetch_dog_details "u".toList "Fallback".toList c10doc).getD defaultRec


-- ## Generic list lemmas

theorem isPrefixB_exists_append {a b : List Char} (h : isPrefixB a b = true) :
    ∃ t, b = a ++ t := by
  induction a generalizing b with
  | nil => exact ⟨b, rfl⟩
  | cons x xs ih =>
    cases b with
    | nil => simp [isPrefixB] at h
    | cons y ys =>
      simp only [isPrefixB, Bool.and_eq_true, beq_iff_eq] at h
      obtain ⟨t, ht⟩ := ih h.2
      exact ⟨t, by simp [h.1, ht]⟩

theorem isPrefixB_of_append (a t : List Char) : isPrefixB a (a ++ t) = true := by
  induction a with
  | nil => rfl
  | cons x xs ih => simp [isPrefixB, ih]

theorem isPrefixB_append_right {a b : List Char} (t : List Char)
    (h : isPrefixB a b = true) : isPrefixB a (b ++ t) = true := by
  obtain ⟨u, hu⟩ := isPrefixB_exists_append h
  subst hu
  simpa [List.append_assoc] using isPrefixB_of_append a (u ++ t)

theorem takeWhile_append_of_all {p : Char → Bool} {l : List Char} (r : List Char)
    (h : ∀ c ∈ l, p c = true) : (l ++ r).takeWhile p = l ++ r.takeWhile p := by
  induction l with
  | nil => rfl
  | cons x xs ih =>
    have hx : p x = true := h x (by simp)
    simp [List.takeWhile_cons, hx, ih fun c hc => h c (by simp [hc])]

theorem dropWhile_append_of_all {p : Char → Bool} {l : List Char} (r : List Char)
    (h : ∀ c ∈ l, p c = true) : (l ++ r).dropWhile p = r.dropWhile p := by
  induction l with
  | nil => rfl
  | cons x xs ih =>
    have hx : p x = true := h x (by simp)
    simp [List.dropWhile_cons, hx, ih fun c hc => h c (by simp [hc])]

theorem takeWhile_of_head_false {p : Char → Bool} {l : List Char}
    (h : ∀ c, l.head? = some c → p c = false) : l.takeWhile p = [] := by
  cases l with
  | nil => rfl
  | cons x xs => simp [List.takeWhile_cons, h x rfl]

theorem dropWhile_of_head_false {p : Char → Bool} {l : List Char}
    (h : ∀ c, l.head? = some c → p c = false) : l.dropWhile p = l := by
  cases l with
  | nil => rfl
  | cons x xs => simp [List.dropWhile_cons, h x rfl]

-- ## Lemmas about the `(\d+)\s*tok` scanner

theorem searchNumToken_nil (tok : List Char) : searchNumToken tok [] = none := rfl

/-- A match at the very start: a non-empty digit run, followed by a
non-digit, parses as its value when the token follows the whitespace. -/
theorem searchNumToken_start {tok ds : List Char} (rest : List Char)
    (hne : ds ≠ []) (hds : ∀ c ∈ ds, isDigit c = true)
    (hrest : ∀ c, rest.head? = some c → isDigit c = false)
    (htok : isPrefixB tok (rest.dropWhile isWs) = true) :
    searchNumToken tok (ds ++ rest) = some (natOfDigits ds) := by
  cases ds with
  | nil => exact absurd rfl hne
  | cons d ds' =>
    have hd : isDigit d = true := hds d (by simp)
    have htake : List.takeWhile isDigit (d :: (ds' ++ rest)) = d :: ds' := by
      have h1 := @takeWhile_append_of_all isDigit (d :: ds') rest hds
      rw [takeWhile_of_head_false hrest, List.append_nil] at h1
      simpa using h1
    have hdrop : List.dropWhile isDigit (d :: (ds' ++ rest)) = rest := by
      have h1 := @dropWhile_append_of_all isDigit (d :: ds') rest hds
      rw [dropWhile_of_head_false hrest] at h1
      simpa using h1
    show searchNumToken tok ((d :: ds') ++ rest) = some (natOfDigits (d :: ds'))
    rw [List.cons_append]
    simp only [searchNumToken, hd, if_true, htake, hdrop, htok]

/-- Scanning can skip a digit run whose trailing context does not carry
the token. -/
theorem searchNumToken_skip_digits {tok ds : List Char} (rest : List Char)
    (hds : ∀ c ∈ ds, isDigit c = true)
    (hfail : isPrefixB tok ((rest.dropWhile isDigit).dropWhile isWs) = false) :
    searchNumToken tok (ds ++ rest) = searchNumToken tok rest := by
  induction ds with
  | nil => rfl
  | cons d ds' ih =>
    have hd : isDigit d = true := hds d (by simp)
    have hdrop : List.dropWhile isDigit (d :: (ds' ++ rest)) = rest.dropWhile isDigit := by
      have h1 := @dropWhile_append_of_all isDigit (d :: ds') rest hds
      simpa using h1
    show searchNumToken tok ((d :: ds') ++ rest) = searchNumToken tok rest
    rw [List.cons_append]
    simp only [searchNumToken, hd, if_true, hdrop, hfail, Bool.false_eq_true, if_false]
    exact ih fun c hc => hds c (by simp [hc])

/-- Scanning skips any run of non-digit characters. -/
theorem searchNumToken_skip_nondigits {tok l : List Char} (rest : List Char)
    (hl : ∀ c ∈ l, isDigit c = false) :
    searchNumToken tok (l ++ rest) = searchNumToken tok rest := by
  induction l with
  | nil => rfl
  | cons x xs ih =>
    have hx : isDigit x = false := hl x (by simp)
    show searchNumToken tok ((x :: xs) ++ rest) = searchNumToken tok rest
    rw [List.cons_append]
    simp only [searchNumToken, hx, Bool.false_eq_true, if_false]
    exact ih fun c hc => hl c (by simp [hc])

theorem containsNumToken_cons {tok : List Char} (c : Char) {rest : List Char}
    (h : containsNumToken tok rest) : containsNumToken tok (c :: rest) := by
  obtain ⟨pre, ds, ws, suf, heq, hne, hds, hws⟩ := h
  exact ⟨c :: pre, ds, ws, suf, by simp [heq], hne, hds, hws⟩

/-- Head-based discharge of the non-digit side condition of
`searchNumToken_start`. -/
theorem headNonDigit_of_head {l : List Char} {d : Char} (h : l.head? = some d)
    (hd : isDigit d = false) : ∀ c, l.head? = some c → isDigit c = false := by
  intro c hc
  rw [h] at hc
  cases hc
  exact hd

/-- A string without digit characters contains no `<N> tok` token. -/
theorem not_containsNumToken_of_no_digit {tok s : List Char}
    (h : ∀ c ∈ s, isDigit c = false) : ¬ containsNumToken tok s := by
  rintro ⟨pre, ds, ws, suf, heq, hne, hds, -⟩
  cases ds with
  | nil => exact hne rfl
  | cons d ds' =>
    have hd : isDigit d = true := hds d (by simp)
    have hmem : d ∈ s := by rw [heq]; simp
    rw [h d hmem] at hd
    cases hd

/-- Soundness of the scanner: a successful search exhibits the token
pattern inside the string. -/
theorem searchNumToken_some_contains {tok s : List Char} {v : Nat}
    (h : searchNumToken tok s = some v) : containsNumToken tok s := by
  induction s with
  | nil => simp [searchNumToken] at h
  | cons c rest ih =>
    by_cases hd : isDigit c = true
    · simp only [searchNumToken, hd, if_true] at h
      by_cases htok :
          isPrefixB tok (((c :: rest).dropWhile isDigit).dropWhile isWs) = true
      · obtain ⟨suf, hsuf⟩ := isPrefixB_exists_append htok
        refine ⟨[], (c :: rest).takeWhile isDigit,
          ((c :: rest).dropWhile isDigit).takeWhile isWs, suf, ?_, ?_, ?_, ?_⟩
        · have h1 : c :: rest =
              (c :: rest).takeWhile isDigit ++ (c :: rest).dropWhile isDigit :=
            (List.takeWhile_append_dropWhile isDigit (c :: rest)).symm
          have h2 : (c :: rest).dropWhile isDigit =
              ((c :: rest).dropWhile isDigit).takeWhile isWs ++ (tok ++ suf) := by
            conv_lhs =>
              rw [← List.takeWhile_append_dropWhile isWs
                ((c :: rest).dropWhile isDigit)]
            rw [hsuf]
          rw [List.nil_append, List.append_assoc, List.append_assoc, ← h2, ← h1]
        · simp [List.takeWhile_cons, hd]
        · exact fun x hx => List.mem_takeWhile_imp hx
        · exact fun x hx => List.mem_takeWhile_imp hx
      · rw [if_neg htok] at h
        exact containsNumToken_cons c (ih h)
    · simp only [searchNumToken, hd, if_false] at h
      exact containsNumToken_cons c (ih h)

-- ## Canonical-form evaluations of `age_to_months`

/-- `"<ds1> years <ds2> months"` parses to `12*ds1 + ds2`. -/
theorem age_canonical_lower (ds1 ds2 : List Char) (h1 : ds1 ≠ []) (h2 : ds2 ≠ [])
    (hd1 : ∀ c ∈ ds1, isDigit c = true) (hd2 : ∀ c ∈ ds2, isDigit c = true) :
    age_to_months (ds1 ++ (" years ".toList ++ (ds2 ++ " months".toList))) =
    12 * natOfDigits ds1 + natOfDigits ds2 := by
  have hyear :
      searchNumToken "year".toList
        (ds1 ++ (" years ".toList ++ (ds2 ++ " months".toList))) =
      some (natOfDigits ds1) :=
    searchNumToken_start _ h1 hd1 (headNonDigit_of_head rfl (by decide)) rfl
  have hm1 :
      searchNumToken "month".toList
        (ds1 ++ (" years ".toList ++ (ds2 ++ " months".toList))) =
      searchNumToken "month".toList (" years ".toList ++ (ds2 ++ " months".toList)) :=
    searchNumToken_skip_digits _ hd1 rfl
  have hm2 :
      searchNumToken "month".toList (" years ".toList ++ (ds2 ++ " months".toList)) =
      searchNumToken "month".toList (ds2 ++ " months".toList) :=
    searchNumToken_skip_nondigits _ (by decide)
  have hm3 :
      searchNumToken "month".toList (ds2 ++ " months".toList) =
      some (natOfDigits ds2) :=
    searchNumToken_start _ h2 hd2 (headNonDigit_of_head rfl (by decide)) rfl
  show (searchNumToken "year".toList _).getD 0 * 12 +
      (searchNumToken "month".toList _).getD 0 = _
  rw [hyear, hm1, hm2, hm3]
  simp [Nat.mul_comm]

/-- `"<ds1> Years <ds2> Months"` parses to `0`: the scanner matches the
token words only in lower case. -/
theorem age_canonical_upper (ds1 ds2 : List Char)
    (hd1 : ∀ c ∈ ds1, isDigit c = true) (hd2 : ∀ c ∈ ds2, isDigit c = true) :
    age_to_months (ds1 ++ (" Years ".toList ++ (ds2 ++ " Months".toList))) = 0 := by
  have hy1 :
      searchNumToken "year".toList
        (ds1 ++ (" Years ".toList ++ (ds2 ++ " Months".toList))) =
      searchNumToken "year".toList (" Years ".toList ++ (ds2 ++ " Months".toList)) :=
    searchNumToken_skip_digits _ hd1 rfl
  have hy2 :
      searchNumToken "year".toList (" Years ".toList ++ (ds2 ++ " Months".toList)) =
      searchNumToken "year".toList (ds2 ++ " Months".toList) :=
    searchNumToken_skip_nondigits _ (by decide)
  have hy3 :
      searchNumToken "year".toList (ds2 ++ " Months".toList) =
      searchNumToken "year".toList " Months".toList :=
    searchNumToken_skip_digits _ hd2 rfl
  have hy4 : searchNumToken "year".toList " Months".toList = none := rfl
  have hm1 :
      searchNumToken "month".toList
        (ds1 ++ (" Years ".toList ++ (ds2 ++ " Months".toList))) =
      searchNumToken "month".toList (" Years ".toList ++ (ds2 ++ " Months".toList)) :=
    searchNumToken_skip_digits _ hd1 rfl
  have hm2 :
      searchNumToken "month".toList (" Years ".toList ++ (ds2 ++ " Months".toList)) =
      searchNumToken "month".toList (ds2 ++ " Months".toList) :=
    searchNumToken_skip_nondigits _ (by decide)
  have hm3 :
      searchNumToken "month".toList (ds2 ++ " Months".toList) =
      searchNumToken "month".toList " Months".toList :=
    searchNumToken_skip_digits _ hd2 rfl
  have hm4 : searchNumToken "month".toList " Months".toList = none := rfl
  show (searchNumToken "year".toList _).getD 0 * 12 +
      (searchNumToken "month".toList _).getD 0 = _
  rw [hy1, hy2, hy3, hy4, hm1, hm2, hm3, hm4]
  rfl

/-- `"<ds> months"` parses to `ds`. -/
theorem age_months_only (ds : List Char) (h : ds ≠ [])
    (hd : ∀ c ∈ ds, isDigit c = true) :
    age_to_months (ds ++ " months".toList) = natOfDigits ds := by
  have hy1 :
      searchNumToken "year".toList (ds ++ " months".toList) =
      searchNumToken "year".toList " months".toList :=
    searchNumToken_skip_digits _ hd rfl
  have hy2 : searchNumToken "year".toList " months".toList = none := rfl
  have hmonth :
      searchNumToken "month".toList (ds ++ " months".toList) =
      some (natOfDigits ds) :=
    searchNumToken_start _ h hd (headNonDigit_of_head rfl (by decide)) rfl
  show (searchNumToken "year".toList _).getD 0 * 12 +
      (searchNumToken "month".toList _).getD 0 = _
  rw [hy1, hy2, hmonth]
  simp

/-- A string containing neither token parses to `0`. -/
theorem age_no_tokens (s : List Char)
    (hy : ¬ containsNumToken "year".toList s)
    (hm : ¬ containsNumToken "month".toList s) : age_to_months s = 0 := by
  have hyear : searchNumToken "year".toList s = none := by
    cases h : searchNumToken "year".toList s with
    | none => rfl
    | some v => exact absurd (searchNumToken_some_contains h) hy
  have hmonth : searchNumToken "month".toList s = none := by
    cases h : searchNumToken "month".toList s with
    | none => rfl
    | some v => exact absurd (searchNumToken_some_contains h) hm
  show (searchNumToken "year".toList _).getD 0 * 12 +
      (searchNumToken "month".toList _).getD 0 = _
  rw [hyear, hmonth]
  rfl

-- ## Claims C2 and C4: the age parser

/-- C4: for every age string of the form `"<n> years <m> months"`,
`age_to_months` returns `12*n + m`; with only a month token it returns
the month count; with neither token it returns 0. -/
theorem claim_C4_thm :
    (∀ ds1 ds2 : List Char, ds1 ≠ [] → ds2 ≠ [] →
      (∀ c ∈ ds1, isDigit c = true) → (∀ c ∈ ds2, isDigit c = true) →
      age_to_months (ds1 ++ (" years ".toList ++ (ds2 ++ " months".toList))) =
        12 * natOfDigits ds1 + natOfDigits ds2) ∧
    (∀ ds : List Char, ds ≠ [] → (∀ c ∈ ds, isDigit c = true) →
      age_to_months (ds ++ " months".toList) = natOfDigits ds) ∧
    (∀ s : List Char, ¬ containsNumToken "year".toList s →
      ¬ containsNumToken "month".toList s → age_to_months s = 0) :=
  ⟨age_canonical_lower, age_months_only, age_no_tokens⟩

/-- Witness for C4 at `"2 years 3 months"`, `"5 months"` and
`"puppy"`. -/
theorem claim_C4_witness :
    age_to_months "2 years 3 months".toList = 27 ∧
    age_to_months "5 months".toList = 5 ∧
    age_to_months "puppy".toList = 0 := by
  refine ⟨?_, ?_, ?_⟩
  · exact claim_C4_thm.1 ['2'] ['3'] (by decide) (by decide) (by decide) (by decide)
  · exact claim_C4_thm.2.1 ['5'] (by decide) (by decide)
  · exact claim_C4_thm.2.2 _ (not_containsNumToken_of_no_digit (by decide))
      (not_containsNumToken_of_no_digit (by decide))

/-- C2 counterexample: the token matching of `age_to_months` is
case-sensitive — capitalising `years`/`months` changes the result, so
the claimed case-insensitivity fails. -/
theorem claim_C2_counterexample :
    age_to_months "2 Years 3 Months".toList ≠
    age_to_months "2 years 3 months".toList := by decide

/-- C2 (amended): `age_to_months` recognizes the year and month tokens
case-sensitively, in lower case only: a canonical lower-case age string
parses to `12*n + m`, while the same string with capitalised `Years` and
`Months` parses to 0. -/
theorem claim_C2_thm : ∀ ds1 ds2 : List Char, ds1 ≠ [] → ds2 ≠ [] →
    (∀ c ∈ ds1, isDigit c = true) → (∀ c ∈ ds2, isDigit c = true) →
    age_to_months (ds1 ++ (" years ".toList ++ (ds2 ++ " months".toList))) =
      12 * natOfDigits ds1 + natOfDigits ds2 ∧
    age_to_months (ds1 ++ (" Years ".toList ++ (ds2 ++ " Months".toList))) = 0 :=
  fun ds1 ds2 h1 h2 hd1 hd2 =>
    ⟨age_canonical_lower ds1 ds2 h1 h2 hd1 hd2,
     age_canonical_upper ds1 ds2 hd1 hd2⟩

/-- Witness for C2 at `"2 years 3 months"` / `"2 Years 3 Months"`. -/
theorem claim_C2_witness :
    age_to_months "2 years 3 months".toList = 27 ∧
    age_to_months "2 Years 3 Months".toList = 0 := by
  have h := claim_C2_thm ['2'] ['3'] (by decide) (by decide) (by decide) (by decide)
  exact ⟨h.1, h.2⟩

-- ## Lemmas about the `name\('([^']+)'\)` scanner

/-- Soundness: a successful call-pattern search exhibits the pattern
inside the string, and the returned argument is non-empty and
quote-free. -/
theorem searchCallArg_some {lit s u : List Char} (h : searchCallArg lit s = some u) :
    ∃ pre suf, s = pre ++ lit ++ u ++ [quoteChar, ')'] ++ suf ∧ u ≠ [] ∧
      ∀ c ∈ u, (c == quoteChar) = false := by
  induction s with
  | nil => simp [searchCallArg] at h
  | cons c rest ih =>
    simp only [searchCallArg] at h
    split at h
    · split at h
      · next hp hc =>
        obtain ⟨t, ht⟩ := isPrefixB_exists_append hp
        have hdrop : (c :: rest).drop lit.length = t := by
          rw [ht, List.drop_left]
        rw [hdrop] at h hc
        rw [Bool.and_eq_true] at hc
        obtain ⟨hc1, hc2⟩ := hc
        obtain ⟨suf, hsuf⟩ := isPrefixB_exists_append hc2
        have hu : t.takeWhile (fun ch => !(ch == quoteChar)) = u :=
          Option.some.inj h
        refine ⟨[], suf, ?_, ?_, ?_⟩
        · have hsplit :
              t = t.takeWhile (fun ch => !(ch == quoteChar)) ++
                t.dropWhile (fun ch => !(ch == quoteChar)) :=
            (List.takeWhile_append_dropWhile _ t).symm
          rw [ht, hsplit, hu, hsuf]
          simp [List.append_assoc]
        · intro hnil
          rw [hu, hnil] at hc1
          simp at hc1
        · intro x hx
          rw [← hu] at hx
          have := List.mem_takeWhile_imp hx
          simpa using this
      · next hp hc =>
        obtain ⟨pre, suf, heq, hne, hq⟩ := ih h
        exact ⟨c :: pre, suf, by simp [heq, List.append_assoc], hne, hq⟩
    · next hp =>
      obtain ⟨pre, suf, heq, hne, hq⟩ := ih h
      exact ⟨c :: pre, suf, by simp [heq, List.append_assoc], hne, hq⟩

/-- Completeness: whenever the string contains the call pattern, the
search succeeds. -/
theorem searchCallArg_complete (lit pre arg suf : List Char) (hlit : lit ≠ [])
    (hne : arg ≠ []) (hq : ∀ c ∈ arg, (c == quoteChar) = false) :
    (searchCallArg lit
      (pre ++ (lit ++ (arg ++ ([quoteChar, ')'] ++ suf))))).isSome = true := by
  induction pre with
  | nil =>
    cases lit with
    | nil => exact absurd rfl hlit
    | cons l0 lit' =>
      have hnq : ∀ c ∈ arg, (fun ch => !(ch == quoteChar)) c = true := by
        intro c hc
        simp [hq c hc]
      have hrun :
          (arg ++ ([quoteChar, ')'] ++ suf)).takeWhile (fun ch => !(ch == quoteChar)) =
          arg := by
        rw [@takeWhile_append_of_all (fun ch => !(ch == quoteChar)) arg
          ([quoteChar, ')'] ++ suf) hnq,
          takeWhile_of_head_false (by intro c hc; cases hc; decide),
          List.append_nil]
      have hrem :
          (arg ++ ([quoteChar, ')'] ++ suf)).dropWhile (fun ch => !(ch == quoteChar)) =
          [quoteChar, ')'] ++ suf := by
        rw [@dropWhile_append_of_all (fun ch => !(ch == quoteChar)) arg
          ([quoteChar, ')'] ++ suf) hnq,
          dropWhile_of_head_false (by intro c hc; cases hc; decide)]
      have hp : isPrefixB (l0 :: lit') (l0 :: (lit' ++ (arg ++ ([quoteChar, ')'] ++ suf)))) = true := by
        have := isPrefixB_of_append (l0 :: lit') (arg ++ ([quoteChar, ')'] ++ suf))
        simpa using this
      have hdrop :
          (l0 :: (lit' ++ (arg ++ ([quoteChar, ')'] ++ suf)))).drop (l0 :: lit').length =
          arg ++ ([quoteChar, ')'] ++ suf) := by
        have := List.drop_left (l0 :: lit') (arg ++ ([quoteChar, ')'] ++ suf))
        simp at this
        simp [this]
      show (searchCallArg (l0 :: lit')
        ((l0 :: lit') ++ (arg ++ ([quoteChar, ')'] ++ suf)))).isSome = true
      rw [List.cons_append]
      simp only [searchCallArg, hp, if_true, hdrop, hrun, hrem]
      have hargne : arg.isEmpty = false := by
        cases arg with
        | nil => exact absurd rfl hne
        | cons x xs => rfl
      have hclose : isPrefixB [quoteChar, ')'] (quoteChar :: ')' :: suf) = true :=
        isPrefixB_of_append [quoteChar, ')'] suf
      simp [hargne, hclose]
  | cons p pre' ih =>
    show (searchCallArg lit
      ((p :: pre') ++ (lit ++ (arg ++ ([quoteChar, ')'] ++ suf))))).isSome = true
    rw [List.cons_append]
    simp only [searchCallArg]
    split
    · split
      · simp
      · exact ih
    · exact ih

-- ## Claim C5: the detail-link resolver

/-- C5: `extract_detail_url` returns `BASE_URL` concatenated with the
captured relative path whenever the string contains a
`poptastic('<relative-path>')` call, and `none` whenever it contains no
such pattern. -/
theorem claim_C5_thm :
    (∀ s : List Char, containsCallArg poptasticLit s →
      ∃ path pre suf, extract_detail_url s = some (BASE_URL ++ path) ∧
        s = pre ++ poptasticLit ++ path ++ [quoteChar, ')'] ++ suf ∧
        path ≠ [] ∧ ∀ c ∈ path, (c == quoteChar) = false) ∧
    (∀ s : List Char, ¬ containsCallArg poptasticLit s →
      extract_detail_url s = none) := by
  constructor
  · intro s hc
    obtain ⟨pre, arg, suf, heq, hne, hq⟩ := hc
    have hsome : (searchCallArg poptasticLit s).isSome = true := by
      rw [heq]
      have := searchCallArg_complete poptasticLit pre arg suf (by decide) hne hq
      simpa [List.append_assoc] using this
    obtain ⟨u, hu⟩ := Option.isSome_iff_exists.mp hsome
    obtain ⟨pre2, suf2, heq2, hne2, hq2⟩ := searchCallArg_some hu
    exact ⟨u, pre2, suf2, by simp [extract_detail_url, hu], heq2, hne2, hq2⟩
  · intro s hnc
    cases h : searchCallArg poptasticLit s with
    | none => simp [extract_detail_url, h]
    | some u =>
      obtain ⟨pre2, suf2, heq2, hne2, hq2⟩ := searchCallArg_some h
      exact absurd ⟨pre2, u, suf2, heq2, hne2, hq2⟩ hnc

/-- Witness for C5: the spec's example string resolves to the base URL
plus `Detail.aspx?id=5`, and a pattern-free string resolves to
nothing. -/
theorem claim_C5_witness :
    (∃ path pre suf, extract_detail_url c5s = some (BASE_URL ++ path) ∧
      c5s = pre ++ poptasticLit ++ path ++ [quoteChar, ')'] ++ suf ∧
      path ≠ [] ∧ ∀ c ∈ path, (c == quoteChar) = false) ∧
    extract_detail_url "no call here".toList = none := by
  constructor
  · exact claim_C5_thm.1 c5s
      ⟨"onclick=".toList, "Detail.aspx?id=5".toList, [], rfl, by decide, by decide⟩
  · apply claim_C5_thm.2
    rintro ⟨pre, arg, suf, heq, hne, -⟩
    have hlen := congrArg List.length heq
    have h12 : ("no call here".toList).length = 12 := rfl
    have h11 : poptasticLit.length = 11 := rfl
    rw [h12] at hlen
    simp [List.length_append, h11] at hlen
    omega

-- ## Claim C8: missing configuration aborts before any network activity

/-- C8: when the sender or the recipient configuration is missing (or
empty), `lambda_handler` returns status 400 with the configuration
message and the effect trace is empty — no listing fetch, detail fetch
or email send happens. -/
theorem claim_C8_thm (env : Env) (net : Network)
    (h : pyTruthy env.email_from = false ∨ pyTruthy env.email_to = false) :
    lambda_handler env net =
      (⟨400, "Email configuration missing. Check environment variables.".toList⟩, []) := by
  have hcond : (!pyTruthy env.email_from || !pyTruthy env.email_to) = true := by
    cases h with
    | inl h => simp [h]
    | inr h => simp [h]
  simp [lambda_handler, hcond]

/-- Witness for C8: unset sender address. -/
theorem claim_C8_witness :
    lambda_handler c8env c8net =
      (⟨400, "Email configuration missing. Check environment variables.".toList⟩, []) :=
  claim_C8_thm c8env c8net (Or.inl rfl)

-- ## Claim C9: zero survivors still sends the empty-state report

/-- C9: when the pipeline succeeds with zero surviving candidates and
the mail call succeeds, the fixed "no puppies" body is sent to the
parsed recipients and the handler returns status 200. -/
theorem claim_C9_thm (env : Env) (net : Network) (f t : List Char) (effs : List Effect)
    (hf : env.email_from = some f) (hfne : f.isEmpty = false)
    (ht : env.email_to = some t) (htne : t.isEmpty = false)
    (hfetch : fetch_and_filter_puppies net = (.ok [], effs))
    (hmail : net.email = none) :
    lambda_handler env net =
      (⟨200, "Email sent successfully!".toList⟩,
       effs ++ [.sendEmail f (t.splitOn ',') noPuppiesBody]) := by
  have hcond : (!pyTruthy env.email_from || !pyTruthy env.email_to) = false := by
    simp [hf, ht, pyTruthy, hfne, htne]
  simp [lambda_handler, hcond, hfetch, send_email_report, hmail, hf, ht,
    pyTruthy, hfne, htne]

/-- Witness for C9: an empty listing page with working mail delivery. -/
theorem claim_C9_witness :
    lambda_handler c9env c9net =
      (⟨200, "Email sent successfully!".toList⟩,
       [.getListing,
        .sendEmail "from@x.y".toList ("to@x.y".toList.splitOn ',') noPuppiesBody]) :=
  claim_C9_thm c9env c9net "from@x.y".toList "to@x.y".toList [.getListing]
    rfl rfl rfl rfl rfl rfl

-- ## Claim C10: present-but-empty label fields default like absent ones

/-- C10: a label element that exists but whose stripped text is empty
yields the same field value as an absent element — the default (or, for
the name, the caller-supplied fallback). -/
theorem claim_C10_thm :
    (∀ (soup : Html) (i d : List Char) (element : Html),
      findNode (hasIdB i) soup = some element → get_text element = [] →
      orDefault (get_text_by_id soup i) d = d ∧ orDefault none d = d) ∧
    (∀ (detail_url dog_name : List Char) (doc : Html) (rec : DogDetails) (element : Html),
      fetch_dog_details detail_url dog_name doc = some rec →
      findNode (hasIdB "lbBreed".toList) (fixDocNode doc).2 = some element →
      get_text element = [] → rec.breed = "Unknown".toList) ∧
    (∀ (detail_url dog_name : List Char) (doc : Html) (rec : DogDetails) (element : Html),
      fetch_dog_details detail_url dog_name doc = some rec →
      findNode (hasIdB "lbName".toList) (fixDocNode doc).2 = some element →
      get_text element = [] → rec.name = dog_name) := by
  refine ⟨?_, ?_, ?_⟩
  · intro soup i d element hfind htext
    refine ⟨?_, rfl⟩
    unfold get_text_by_id
    rw [hfind]
    show orDefault (some (get_text element)) d = d
    rw [htext]
    rfl
  · intro du dn doc rec element hfetch hfind htext
    have hgt : get_text_by_id (fixDocNode doc).2 "lbBreed".toList = some [] := by
      unfold get_text_by_id
      rw [hfind]
      show some (get_text element) = some []
      rw [htext]
    cases hl : findNode (hasIdB "DefaultLayoutDiv".toList) doc with
    | none =>
      unfold fetch_dog_details at hfetch
      rw [hl] at hfetch
      exact Option.noConfusion hfetch
    | some ld =>
      unfold fetch_dog_details at hfetch
      rw [hl] at hfetch
      have hrec := (Option.some.inj hfetch).symm
      have hb : rec.breed =
          orDefault (get_text_by_id (fixDocNode doc).2 "lbBreed".toList)
            "Unknown".toList := by
        rw [hrec]
      rw [hb, hgt]
      rfl
  · intro du dn doc rec element hfetch hfind htext
    have hgt : get_text_by_id (fixDocNode doc).2 "lbName".toList = some [] := by
      unfold get_text_by_id
      rw [hfind]
      show some (get_text element) = some []
      rw [htext]
    cases hl : findNode (hasIdB "DefaultLayoutDiv".toList) doc with
    | none =>
      unfold fetch_dog_details at hfetch
      rw [hl] at hfetch
      exact Option.noConfusion hfetch
    | some ld =>
      unfold fetch_dog_details at hfetch
      rw [hl] at hfetch
      have hrec := (Option.some.inj hfetch).symm
      have hb : rec.name =
          orDefault (get_text_by_id (fixDocNode doc).2 "lbName".toList) dn := by
        rw [hrec]
      rw [hb, hgt]
      rfl

/-- Witness for C10 on a page whose breed label holds only whitespace
and whose name label is empty. -/
theorem claim_C10_witness :
    orDefault (get_text_by_id c10doc "lbBreed".toList) "Unknown".toList =
      "Unknown".toList ∧
    c10rec.breed = "Unknown".toList ∧
    c10rec.name = "Fallback".toList := by
  refine ⟨?_, ?_, ?_⟩
  · exact (claim_C10_thm.1 c10doc "lbBreed".toList "Unknown".toList
      (.elem "span".toList [("id".toList, "lbBreed".toList)] [.text "   ".toList])
      rfl rfl).1
  · exact claim_C10_thm.2.1 "u".toList "Fallback".toList c10doc c10rec
      (.elem "span".toList [("id".toList, "lbBreed".toList)] [.text "   ".toList])
      rfl rfl rfl
  · exact claim_C10_thm.2.2 "u".toList "Fallback".toList c10doc c10rec
      (.elem "span".toList [("id".toList, "lbName".toList)] [])
      rfl rfl rfl

-- ## Claim C6: the age filter is strictly below six months

/-- C6: an entry whose parsed age is exactly 6 months is excluded by the
loop (no record, no detail fetch), while an entry parsed at 5 months
proceeds: with a resolvable link and a successful detail resolution its
record is produced. -/
theorem claim_C6_thm :
    (∀ (net : Network) (dog age_element name_element : Html),
      findForest (hasClassB "list-animal-age".toList) (childrenOf dog) =
        some age_element →
      findForest (hasClassB "list-animal-name".toList) (childrenOf dog) =
        some name_element →
      age_to_months (get_text age_element) = 6 →
      listing_step net dog = (none, [])) ∧
    (∀ (net : Network) (dog age_element name_element link_element : Html)
        (href detail_url : List Char) (page : Html) (rec : DogDetails),
      findForest (hasClassB "list-animal-age".toList) (childrenOf dog) =
        some age_element →
      findForest (hasClassB "list-animal-name".toList) (childrenOf dog) =
        some name_element →
      age_to_months (get_text age_element) = 5 →
      findForest (hasTagB "a".toList) (childrenOf dog) = some link_element →
      getAttr (attrsOf link_element) "href".toList = some href →
      extract_detail_url href = some detail_url →
      net.detail detail_url = some page →
      fetch_dog_details detail_url (get_text name_element) page = some rec →
      listing_step net dog = (some rec, [Effect.getDetail detail_url])) := by
  constructor
  · intro net dog ae ne hae hne hage
    unfold listing_step
    rw [hae, hne]
    dsimp only
    rw [hage, if_pos (show (6 : Nat) ≥ MAX_AGE_MONTHS by decide)]
  · intro net dog ae nameel linkel href durl page rec hae hnamee hage hlink hhref
      hext hnet hfetch
    have hhne : href.isEmpty = false := by
      cases href with
      | nil => rw [show extract_detail_url [] = none from rfl] at hext; cases hext
      | cons x xs => rfl
    unfold listing_step
    rw [hae, hnamee]
    dsimp only
    rw [hage, if_neg (show ¬ (5 : Nat) ≥ MAX_AGE_MONTHS by decide), hlink]
    dsimp only
    rw [hhref]
    dsimp only
    rw [hhne, if_neg (show ¬ false = true by decide), hext]
    dsimp only
    rw [hnet]
    dsimp only
    rw [hfetch]

/-- Witness for C6: a six-month entry is dropped with no detail fetch; a
five-month entry with a working link resolves to a record. -/
theorem claim_C6_witness :
    listing_step c6net c6dog6 = (none, []) ∧
    listing_step c6net c6dog5 =
      (some c6rec, [Effect.getDetail (BASE_URL ++ "d6.aspx".toList)]) := by
  constructor
  · exact claim_C6_thm.1 c6net c6dog6
      (.elem "span".toList [("class".toList, "list-animal-age".toList)]
        [.text "6 months".toList])
      (.elem "span".toList [("class".toList, "list-animal-name".toList)]
        [.text "Hexa".toList])
      rfl rfl rfl
  · exact claim_C6_thm.2 c6net c6dog5
      (.elem "span".toList [("class".toList, "list-animal-age".toList)]
        [.text "5 months".toList])
      (.elem "span".toList [("class".toList, "list-animal-name".toList)]
        [.text "Penta".toList])
      (.elem "a".toList [("href".toList, sanHrefC6)] [])
      sanHrefC6 (BASE_URL ++ "d6.aspx".toList) c6page c6rec
      rfl rfl rfl rfl rfl rfl rfl rfl

-- ## Claim C7: the interleaved loop refines the staged pipeline

/-- The record component of one loop iteration prepends the resolved
record, if any. -/
theorem listing_loop_cons (net : Network) (dog : Html) (dogs : List Html) :
    (listing_loop net (dog :: dogs)).1 =
      (match (listing_step net dog).1 with
       | some d => d :: (listing_loop net dogs).1
       | none => (listing_loop net dogs).1) := by
  show (match listing_step net dog with
        | (r, e) =>
          match listing_loop net dogs with
          | (rs, es) => ((match r with | some d => d :: rs | none => rs), e ++ es)).1 = _
  rcases listing_step net dog with ⟨r, e⟩
  rcases hl : listing_loop net dogs with ⟨rs, es⟩
  cases r <;> simp [hl]

/-- C7: on every listing document the interleaved loop of
`fetch_and_filter_puppies` produces the same record sequence, in
document order, as the staged pipeline `extract summaries → filter by
age → resolve details`. -/
theorem claim_C7_thm (net : Network) (page : Html) :
    spec_staged_pipeline net page =
    (listing_loop net (collectNode (hasTagB "li".toList) page)).1 := by
  unfold spec_staged_pipeline spec_extract_summaries spec_filter_candidates
    spec_resolve_details
  generalize collectNode (hasTagB "li".toList) page = dogs
  induction dogs with
  | nil => rfl
  | cons dog dogs ih =>
    rw [List.filterMap_cons, listing_loop_cons]
    unfold listing_step
    cases hae : findForest (hasClassB "list-animal-age".toList) (childrenOf dog) with
    | none =>
      dsimp only
      exact ih
    | some ae =>
      cases hname :
          findForest (hasClassB "list-animal-name".toList) (childrenOf dog) with
      | none =>
        dsimp only
        exact ih
      | some ne =>
        dsimp only
        by_cases hage : age_to_months (get_text ae) ≥ MAX_AGE_MONTHS
        · rw [if_pos hage]
          have hfilter :
              decide (age_to_months (get_text ae) < MAX_AGE_MONTHS) = false := by
            simp only [decide_eq_false_iff_not]
            omega
          cases hlink : findForest (hasTagB "a".toList) (childrenOf dog) with
          | none => dsimp only; exact ih
          | some linkel =>
            dsimp only
            cases hhref : getAttr (attrsOf linkel) "href".toList with
            | none => dsimp only; exact ih
            | some href =>
              dsimp only
              cases hext : extract_detail_url href with
              | none => dsimp only; exact ih
              | some durl =>
                dsimp only
                rw [List.filter_cons]
                dsimp only [hfilter]
                rw [if_neg (by simp [hfilter])]
                exact ih
        · rw [if_neg hage]
          have hfilter :
              decide (age_to_months (get_text ae) < MAX_AGE_MONTHS) = true := by
            simp only [decide_eq_true_eq]
            omega
          cases hlink : findForest (hasTagB "a".toList) (childrenOf dog) with
          | none => dsimp only; exact ih
          | some linkel =>
            dsimp only
            cases hhref : getAttr (attrsOf linkel) "href".toList with
            | none => dsimp only; exact ih
            | some href =>
              dsimp only
              cases hhe : href with
              | nil =>
                rw [if_pos (show ([] : List Char).isEmpty = true from rfl),
                  show extract_detail_url [] = none from rfl]
                dsimp only
                exact ih
              | cons h0 htl =>
                rw [if_neg (show ¬ (h0 :: htl).isEmpty = true by simp)]
                cases hext : extract_detail_url (h0 :: htl) with
                | none => dsimp only; exact ih
                | some durl =>
                  dsimp only
                  rw [List.filter_cons]
                  rw [if_pos (by simp [hfilter])]
                  rw [List.filterMap_cons]
                  dsimp only
                  cases hdet : net.detail durl with
                  | none =>
                    dsimp only
                    exact ih
                  | some detpage =>
                    dsimp only
                    cases hfetch :
                        fetch_dog_details durl (get_text ne) detpage with
                    | none => dsimp only; exact ih
                    | some rec =>
                      dsimp only
                      rw [ih]

-- ## Tree induction and interface lemmas

/-- Joint structural induction over `Html`, with a motive for forests. -/
theorem html_induction (P : Html → Prop) (Q : List Html → Prop)
    (helem : ∀ t a c, Q c → P (.elem t a c))
    (htext : ∀ s, P (.text s))
    (hnil : Q [])
    (hcons : ∀ x xs, P x → Q xs → Q (x :: xs)) :
    ∀ n, P n :=
  fun n => Html.rec helem htext hnil hcons n

/-- Forest form of `html_induction`. -/
theorem html_forest_induction (P : Html → Prop) (Q : List Html → Prop)
    (helem : ∀ t a c, Q c → P (.elem t a c))
    (htext : ∀ s, P (.text s))
    (hnil : Q [])
    (hcons : ∀ x xs, P x → Q xs → Q (x :: xs)) :
    ∀ l, Q l := by
  intro l
  induction l with
  | nil => exact hnil
  | cons x xs ih =>
    exact hcons x xs (html_induction P Q helem htext hnil hcons x) ih

theorem getAttr_setAttr_found {a : List (List Char × List Char)} {k s : List Char}
    (v : List Char) (h : getAttr a k = some s) :
    getAttr (setAttr a k v) k = some v := by
  induction a with
  | nil => simp [getAttr] at h
  | cons kv rest ih =>
    rcases kv with ⟨k0, v0⟩
    by_cases hk : k0 = k
    · simp [getAttr, setAttr, hk]
    · simp only [getAttr, setAttr, if_neg hk] at h ⊢
      exact ih h

theorem getAttr_setAttr_other (a : List (List Char × List Char))
    {k k' : List Char} (v : List Char) (h : k' ≠ k) :
    getAttr (setAttr a k v) k' = getAttr a k' := by
  induction a with
  | nil => rfl
  | cons kv rest ih =>
    rcases kv with ⟨k0, v0⟩
    by_cases hk : k0 = k
    · subst hk
      simp only [setAttr, if_pos rfl, getAttr]
      rw [if_neg (fun hc => h hc.symm), if_neg (fun hc => h hc.symm)]
    · simp only [setAttr, if_neg hk, getAttr]
      by_cases hk' : k0 = k'
      · rw [if_pos hk', if_pos hk']
      · rw [if_neg hk', if_neg hk']
        exact ih

/-- Reading the `src` attribute after the img fix: the value is the
per-src rewrite (with falsy sources skipped). -/
theorem getAttr_fixImgSrcAttrs_src (b : List Char) (a : List (List Char × List Char)) :
    getAttr (fixImgSrcAttrs b a) "src".toList =
      (getAttr a "src".toList).map (fixedSrc b) := by
  unfold fixImgSrcAttrs
  cases h : getAttr a "src".toList with
  | none =>
    show getAttr a "src".toList = none
    exact h
  | some s =>
    show getAttr (if s.isEmpty = true then a
        else setAttr a "src".toList (rewriteSrc b s)) "src".toList =
      some (fixedSrc b s)
    by_cases hs : s.isEmpty = true
    · rw [if_pos hs]
      rw [show fixedSrc b s = s from by rw [fixedSrc, if_pos hs]]
      exact h
    · rw [if_neg hs]
      rw [getAttr_setAttr_found _ h]
      rw [show fixedSrc b s = rewriteSrc b s from by rw [fixedSrc, if_neg hs]]

/-- Reading any other attribute is unaffected by the img fix. -/
theorem getAttr_fixImgSrcAttrs_other (b : List Char) (a : List (List Char × List Char))
    {k : List Char} (h : k ≠ "src".toList) :
    getAttr (fixImgSrcAttrs b a) k = getAttr a k := by
  unfold fixImgSrcAttrs
  cases hsrc : getAttr a "src".toList with
  | none => rfl
  | some s =>
    show getAttr (if s.isEmpty = true then a
        else setAttr a "src".toList (rewriteSrc b s)) k = getAttr a k
    by_cases hs : s.isEmpty = true
    · rw [if_pos hs]
    · rw [if_neg hs]
      exact getAttr_setAttr_other a _ h

/-- The rewrite of one source either yields an absolute URL or leaves
the source unchanged. -/
theorem rewriteSrc_abs_or_eq (b s : List Char) (hb : b = BASE_URL) :
    isAbsoluteUrl (rewriteSrc b s) = true ∨ rewriteSrc b s = s := by
  unfold rewriteSrc
  by_cases h1 : isPrefixB "../".toList s = true
  · rw [if_pos h1]
    left
    unfold isAbsoluteUrl
    have h2 : isPrefixB "https://".toList
        ("https://ws.petango.com/".toList ++ replaceAll "../".toList [] s) = true :=
      isPrefixB_append_right _ (by decide)
    simp only [Bool.or_eq_true]
    exact Or.inl h2
  · rw [if_neg h1]
    by_cases h2 : isPrefixB "images/".toList s = true
    · rw [if_pos h2]
      left
      unfold isAbsoluteUrl
      subst hb
      have h3 : isPrefixB "https://".toList (BASE_URL ++ s) = true :=
        isPrefixB_append_right _ (by decide)
      simp only [Bool.or_eq_true]
      exact Or.inl h3
    · rw [if_neg h2]
      right
      rfl

/-- The same fact for the falsy-source-skipping variant. -/
theorem fixedSrc_abs_or_eq (s : List Char) :
    isAbsoluteUrl (fixedSrc BASE_URL s) = true ∨ fixedSrc BASE_URL s = s := by
  unfold fixedSrc
  by_cases hs : s.isEmpty = true
  · rw [if_pos hs]
    right
    rfl
  · rw [if_neg hs]
    exact rewriteSrc_abs_or_eq BASE_URL s rfl

theorem mem_allSrcsNode_elem {s : List Char} {t : List Char}
    {a : List (List Char × List Char)} {c : List Html} :
    s ∈ allSrcsNode (.elem t a c) ↔
      getAttr a "src".toList = some s ∨ s ∈ allSrcsForest c := by
  show s ∈ (match getAttr a "src".toList with
    | some s' => [s'] | none => []) ++ allSrcsForest c ↔ _
  cases h : getAttr a "src".toList with
  | none => simp
  | some s' =>
    simp only [List.mem_append, List.mem_singleton, List.mem_cons,
      List.not_mem_nil, or_false]
    constructor
    · rintro (rfl | hm)
      · exact Or.inl rfl
      · exact Or.inr hm
    · rintro (hs | hm)
      · exact Or.inl (Option.some.inj hs).symm
      · exact Or.inr hm

-- ## Provenance of `src` attributes through the image fix

theorem allSrcsForest_cons (x : Html) (xs : List Html) :
    allSrcsForest (x :: xs) = allSrcsNode x ++ allSrcsForest xs := rfl

/-- Every `src` in an img-fixed subtree is absolute or was already
present. -/
theorem fix_srcs_sub :
    (∀ n : Html, ∀ s ∈ allSrcsNode (fixNode BASE_URL n),
      isAbsoluteUrl s = true ∨ s ∈ allSrcsNode n) ∧
    (∀ l : List Html, ∀ s ∈ allSrcsForest (fixForest BASE_URL l),
      isAbsoluteUrl s = true ∨ s ∈ allSrcsForest l) := by
  have htext : ∀ s0 : List Char, ∀ s ∈ allSrcsNode (fixNode BASE_URL (.text s0)),
      isAbsoluteUrl s = true ∨ s ∈ allSrcsNode (.text s0) := by
    intro s0 s hs
    exact absurd hs (List.not_mem_nil s)
  have hnil : ∀ s ∈ allSrcsForest (fixForest BASE_URL []),
      isAbsoluteUrl s = true ∨ s ∈ allSrcsForest [] := by
    intro s hs
    exact absurd hs (List.not_mem_nil s)
  have helem : ∀ t a c,
      (∀ s ∈ allSrcsForest (fixForest BASE_URL c),
        isAbsoluteUrl s = true ∨ s ∈ allSrcsForest c) →
      ∀ s ∈ allSrcsNode (fixNode BASE_URL (.elem t a c)),
        isAbsoluteUrl s = true ∨ s ∈ allSrcsNode (.elem t a c) := by
    intro t a c hc s hs
    rw [show fixNode BASE_URL (.elem t a c) =
      .elem t (if t = "img".toList then fixImgSrcAttrs BASE_URL a else a)
        (fixForest BASE_URL c) from rfl, mem_allSrcsNode_elem] at hs
    cases hs with
    | inl hsrc =>
      by_cases ht : t = "img".toList
      · rw [if_pos ht, getAttr_fixImgSrcAttrs_src] at hsrc
        cases horig : getAttr a "src".toList with
        | none => rw [horig] at hsrc; cases hsrc
        | some s0 =>
          rw [horig] at hsrc
          have hfs : fixedSrc BASE_URL s0 = s := by
            simpa using hsrc
          cases fixedSrc_abs_or_eq s0 with
          | inl habs =>
            left
            rw [← hfs]
            exact habs
          | inr heq =>
            right
            rw [mem_allSrcsNode_elem]
            left
            rw [horig, ← hfs, heq]
      · rw [if_neg ht] at hsrc
        right
        rw [mem_allSrcsNode_elem]
        exact Or.inl hsrc
    | inr hfor =>
      cases hc s hfor with
      | inl h => exact Or.inl h
      | inr h =>
        right
        rw [mem_allSrcsNode_elem]
        exact Or.inr h
  have hcons : ∀ x xs,
      (∀ s ∈ allSrcsNode (fixNode BASE_URL x),
        isAbsoluteUrl s = true ∨ s ∈ allSrcsNode x) →
      (∀ s ∈ allSrcsForest (fixForest BASE_URL xs),
        isAbsoluteUrl s = true ∨ s ∈ allSrcsForest xs) →
      ∀ s ∈ allSrcsForest (fixForest BASE_URL (x :: xs)),
        isAbsoluteUrl s = true ∨ s ∈ allSrcsForest (x :: xs) := by
    intro x xs hx hxs s hs
    rw [show fixForest BASE_URL (x :: xs) =
      fixNode BASE_URL x :: fixForest BASE_URL xs from rfl,
      allSrcsForest_cons] at hs
    rw [allSrcsForest_cons]
    rcases List.mem_append.mp hs with h | h
    · cases hx s h with
      | inl habs => exact Or.inl habs
      | inr hmem => exact Or.inr (List.mem_append.mpr (Or.inl hmem))
    · cases hxs s h with
      | inl habs => exact Or.inl habs
      | inr hmem => exact Or.inr (List.mem_append.mpr (Or.inr hmem))
  exact ⟨html_induction _ _ helem htext hnil hcons,
    html_forest_induction _ _ helem htext hnil hcons⟩

/-- Src provenance through `fix_relative_image_urls` (the root node is
not itself rewritten). -/
theorem fix_root_srcs_sub (n : Html) :
    ∀ s ∈ allSrcsNode (fix_relative_image_urls n BASE_URL),
      isAbsoluteUrl s = true ∨ s ∈ allSrcsNode n := by
  cases n with
  | text s0 =>
    intro s hs
    exact absurd hs (List.not_mem_nil s)
  | elem t a c =>
    intro s hs
    rw [show fix_relative_image_urls (.elem t a c) BASE_URL =
      .elem t a (fixForest BASE_URL c) from rfl, mem_allSrcsNode_elem] at hs
    cases hs with
    | inl hsrc =>
      right
      rw [mem_allSrcsNode_elem]
      exact Or.inl hsrc
    | inr hfor =>
      cases fix_srcs_sub.2 c s hfor with
      | inl habs => exact Or.inl habs
      | inr hmem =>
        right
        rw [mem_allSrcsNode_elem]
        exact Or.inr hmem

/-- Src provenance through the in-place document mutation of
`fetch_dog_details`. -/
theorem fixDoc_srcs_sub :
    (∀ n : Html, ∀ s ∈ allSrcsNode (fixDocNode n).2,
      isAbsoluteUrl s = true ∨ s ∈ allSrcsNode n) ∧
    (∀ l : List Html, ∀ s ∈ allSrcsForest (fixDocForest l).2,
      isAbsoluteUrl s = true ∨ s ∈ allSrcsForest l) := by
  have htext : ∀ s0 : List Char, ∀ s ∈ allSrcsNode (fixDocNode (.text s0)).2,
      isAbsoluteUrl s = true ∨ s ∈ allSrcsNode (.text s0) := by
    intro s0 s hs
    exact absurd hs (List.not_mem_nil s)
  have hnil : ∀ s ∈ allSrcsForest (fixDocForest []).2,
      isAbsoluteUrl s = true ∨ s ∈ allSrcsForest [] := by
    intro s hs
    exact absurd hs (List.not_mem_nil s)
  have helem : ∀ t a c,
      (∀ s ∈ allSrcsForest (fixDocForest c).2,
        isAbsoluteUrl s = true ∨ s ∈ allSrcsForest c) →
      ∀ s ∈ allSrcsNode (fixDocNode (.elem t a c)).2,
        isAbsoluteUrl s = true ∨ s ∈ allSrcsNode (.elem t a c) := by
    intro t a c hc s hs
    rw [show fixDocNode (.elem t a c) =
      (if hasIdB "DefaultLayoutDiv".toList (.elem t a c) = true then
        (true, fix_relative_image_urls (.elem t a c) BASE_URL)
      else
        (match fixDocForest c with
         | (b, c2) => (b, .elem t a c2))) from rfl] at hs
    by_cases hid : hasIdB "DefaultLayoutDiv".toList (.elem t a c) = true
    · rw [if_pos hid] at hs
      exact fix_root_srcs_sub (.elem t a c) s hs
    · rw [if_neg hid] at hs
      rcases hf : fixDocForest c with ⟨bf, c2⟩
      rw [hf] at hs
      rw [show ((bf, Html.elem t a c2) : Bool × Html).2 = .elem t a c2 from rfl,
        mem_allSrcsNode_elem] at hs
      cases hs with
      | inl hsrc =>
        right
        rw [mem_allSrcsNode_elem]
        exact Or.inl hsrc
      | inr hfor =>
        have hc2 : ∀ s ∈ allSrcsForest c2,
            isAbsoluteUrl s = true ∨ s ∈ allSrcsForest c := by
          intro s' hs'
          apply hc
          rw [hf]
          exact hs'
        cases hc2 s hfor with
        | inl habs => exact Or.inl habs
        | inr hmem =>
          right
          rw [mem_allSrcsNode_elem]
          exact Or.inr hmem
  have hcons : ∀ x xs,
      (∀ s ∈ allSrcsNode (fixDocNode x).2,
        isAbsoluteUrl s = true ∨ s ∈ allSrcsNode x) →
      (∀ s ∈ allSrcsForest (fixDocForest xs).2,
        isAbsoluteUrl s = true ∨ s ∈ allSrcsForest xs) →
      ∀ s ∈ allSrcsForest (fixDocForest (x :: xs)).2,
        isAbsoluteUrl s = true ∨ s ∈ allSrcsForest (x :: xs) := by
    intro x xs hx hxs s hs
    rw [show fixDocForest (x :: xs) =
      (match fixDocNode x with
       | (true, x2) => (true, x2 :: xs)
       | (false, _) =>
         match fixDocForest xs with
         | (b, xs2) => (b, x :: xs2)) from rfl] at hs
    rcases hn : fixDocNode x with ⟨bx, x2⟩
    rw [hn] at hs
    rw [allSrcsForest_cons]
    cases bx with
    | true =>
      rw [show ((match ((true : Bool), x2) with
        | (true, x2) => (true, x2 :: xs)
        | (false, _) =>
          match fixDocForest xs with
          | (b, xs2) => (b, x :: xs2)) : Bool × List Html).2 = x2 :: xs from rfl,
        allSrcsForest_cons] at hs
      rcases List.mem_append.mp hs with h | h
      · have hx2 : ∀ s ∈ allSrcsNode x2,
            isAbsoluteUrl s = true ∨ s ∈ allSrcsNode x := by
          intro s' hs'
          apply hx
          rw [hn]
          exact hs'
        cases hx2 s h with
        | inl habs => exact Or.inl habs
        | inr hmem => exact Or.inr (List.mem_append.mpr (Or.inl hmem))
      · exact Or.inr (List.mem_append.mpr (Or.inr h))
    | false =>
      rcases hfs : fixDocForest xs with ⟨b2, xs2⟩
      rw [hfs] at hs
      rw [show ((match ((false : Bool), x2) with
        | (true, x2) => (true, x2 :: xs)
        | (false, _) => ((b2, x :: xs2) : Bool × List Html)) :
          Bool × List Html).2 = x :: xs2 from rfl,
        allSrcsForest_cons] at hs
      rcases List.mem_append.mp hs with h | h
      · exact Or.inr (List.mem_append.mpr (Or.inl h))
      · have hxs2 : ∀ s ∈ allSrcsForest xs2,
            isAbsoluteUrl s = true ∨ s ∈ allSrcsForest xs := by
          intro s' hs'
          apply hxs
          rw [hfs]
          exact hs'
        cases hxs2 s h with
        | inl habs => exact Or.inl habs
        | inr hmem => exact Or.inr (List.mem_append.mpr (Or.inr hmem))
  exact ⟨html_induction _ _ helem htext hnil hcons,
    html_forest_induction _ _ helem htext hnil hcons⟩

/-- A found element's `src` attribute is among the collected sources. -/
theorem findNode_src_mem :
    (∀ n : Html, ∀ (p : Html → Bool) (el : Html) (s : List Char),
      findNode p n = some el → getAttr (attrsOf el) "src".toList = some s →
      s ∈ allSrcsNode n) ∧
    (∀ l : List Html, ∀ (p : Html → Bool) (el : Html) (s : List Char),
      findForest p l = some el → getAttr (attrsOf el) "src".toList = some s →
      s ∈ allSrcsForest l) := by
  have htext : ∀ s0 : List Char, ∀ (p : Html → Bool) (el : Html) (s : List Char),
      findNode p (.text s0) = some el →
      getAttr (attrsOf el) "src".toList = some s → s ∈ allSrcsNode (.text s0) := by
    intro s0 p el s hf hsrc
    rw [show findNode p (.text s0) =
      (if p (.text s0) = true then some (.text s0) else none) from rfl] at hf
    by_cases hp : p (.text s0) = true
    · rw [if_pos hp] at hf
      cases Option.some.inj hf
      cases hsrc
    · rw [if_neg hp] at hf
      cases hf
  have hnil : ∀ (p : Html → Bool) (el : Html) (s : List Char),
      findForest p [] = some el → getAttr (attrsOf el) "src".toList = some s →
      s ∈ allSrcsForest [] := by
    intro p el s hf hsrc
    cases hf
  have helem : ∀ t a c,
      (∀ (p : Html → Bool) (el : Html) (s : List Char),
        findForest p c = some el → getAttr (attrsOf el) "src".toList = some s →
        s ∈ allSrcsForest c) →
      ∀ (p : Html → Bool) (el : Html) (s : List Char),
        findNode p (.elem t a c) = some el →
        getAttr (attrsOf el) "src".toList = some s →
        s ∈ allSrcsNode (.elem t a c) := by
    intro t a c hc p el s hf hsrc
    rw [show findNode p (.elem t a c) =
      (if p (.elem t a c) = true then some (.elem t a c) else findForest p c)
      from rfl] at hf
    by_cases hp : p (.elem t a c) = true
    · rw [if_pos hp] at hf
      cases Option.some.inj hf
      rw [mem_allSrcsNode_elem]
      exact Or.inl hsrc
    · rw [if_neg hp] at hf
      rw [mem_allSrcsNode_elem]
      exact Or.inr (hc p el s hf hsrc)
  have hcons : ∀ x xs,
      (∀ (p : Html → Bool) (el : Html) (s : List Char),
        findNode p x = some el → getAttr (attrsOf el) "src".toList = some s →
        s ∈ allSrcsNode x) →
      (∀ (p : Html → Bool) (el : Html) (s : List Char),
        findForest p xs = some el → getAttr (attrsOf el) "src".toList = some s →
        s ∈ allSrcsForest xs) →
      ∀ (p : Html → Bool) (el : Html) (s : List Char),
        findForest p (x :: xs) = some el →
        getAttr (attrsOf el) "src".toList = some s →
        s ∈ allSrcsForest (x :: xs) := by
    intro x xs hx hxs p el s hf hsrc
    rw [show findForest p (x :: xs) =
      (match findNode p x with
       | some r => some r
       | none => findForest p xs) from rfl] at hf
    rw [allSrcsForest_cons]
    cases hfx : findNode p x with
    | some r =>
      rw [hfx] at hf
      cases Option.some.inj hf
      exact List.mem_append.mpr (Or.inl (hx p el s hfx hsrc))
    | none =>
      rw [hfx] at hf
      exact List.mem_append.mpr (Or.inr (hxs p el s hf hsrc))
  exact ⟨html_induction _ _ helem htext hnil hcons,
    html_forest_induction _ _ helem htext hnil hcons⟩

-- ## Preservation of loadPhoto URLs through the image fix

/-- The img fix changes no tag and no `onclick` attribute, so the anchor
filter is unchanged. -/
theorem isLoadPhotoAnchor_fixNode (b : List Char) (n : Html) :
    isLoadPhotoAnchor (fixNode b n) = isLoadPhotoAnchor n := by
  cases n with
  | text s => rfl
  | elem t a c =>
    show isLoadPhotoAnchor
      (.elem t (if t = "img".toList then fixImgSrcAttrs b a else a)
        (fixForest b c)) = _
    by_cases ht : t = "img".toList
    · rw [if_pos ht]
      unfold isLoadPhotoAnchor
      rw [show attrsOf (Html.elem t (fixImgSrcAttrs b a) (fixForest b c)) =
        fixImgSrcAttrs b a from rfl,
        show attrsOf (Html.elem t a c) = a from rfl,
        getAttr_fixImgSrcAttrs_other b a (by decide)]
      rfl
    · rw [if_neg ht]
      rfl

/-- Likewise for the extracted `loadPhoto` URL. -/
theorem extractOnclick_fixNode (b : List Char) (n : Html) :
    extractOnclick (fixNode b n) = extractOnclick n := by
  cases n with
  | text s => rfl
  | elem t a c =>
    show extractOnclick
      (.elem t (if t = "img".toList then fixImgSrcAttrs b a else a)
        (fixForest b c)) = _
    by_cases ht : t = "img".toList
    · rw [if_pos ht]
      unfold extractOnclick
      rw [show attrsOf (Html.elem t (fixImgSrcAttrs b a) (fixForest b c)) =
        fixImgSrcAttrs b a from rfl,
        show attrsOf (Html.elem t a c) = a from rfl,
        getAttr_fixImgSrcAttrs_other b a (by decide)]
    · rw [if_neg ht]
      rfl

/-- The `loadPhoto` URL list is unchanged by the img fix. -/
theorem lp_fix_sub :
    (∀ n : Html,
      (collectNode isLoadPhotoAnchor (fixNode BASE_URL n)).filterMap extractOnclick =
      (collectNode isLoadPhotoAnchor n).filterMap extractOnclick) ∧
    (∀ l : List Html,
      (collectForest isLoadPhotoAnchor (fixForest BASE_URL l)).filterMap extractOnclick =
      (collectForest isLoadPhotoAnchor l).filterMap extractOnclick) := by
  have htext : ∀ s0 : List Char,
      (collectNode isLoadPhotoAnchor (fixNode BASE_URL (.text s0))).filterMap
        extractOnclick =
      (collectNode isLoadPhotoAnchor (.text s0)).filterMap extractOnclick := by
    intro s0
    rfl
  have hnil :
      (collectForest isLoadPhotoAnchor (fixForest BASE_URL [])).filterMap
        extractOnclick =
      (collectForest isLoadPhotoAnchor []).filterMap extractOnclick := rfl
  have helem : ∀ t a c,
      ((collectForest isLoadPhotoAnchor (fixForest BASE_URL c)).filterMap
        extractOnclick =
       (collectForest isLoadPhotoAnchor c).filterMap extractOnclick) →
      (collectNode isLoadPhotoAnchor (fixNode BASE_URL (.elem t a c))).filterMap
        extractOnclick =
      (collectNode isLoadPhotoAnchor (.elem t a c)).filterMap extractOnclick := by
    intro t a c hc
    have e1 : collectNode isLoadPhotoAnchor (fixNode BASE_URL (.elem t a c)) =
        (if isLoadPhotoAnchor (fixNode BASE_URL (.elem t a c)) = true then
          [fixNode BASE_URL (.elem t a c)] else []) ++
        collectForest isLoadPhotoAnchor (fixForest BASE_URL c) := rfl
    have e2 : collectNode isLoadPhotoAnchor (.elem t a c) =
        (if isLoadPhotoAnchor (.elem t a c) = true then [.elem t a c] else []) ++
        collectForest isLoadPhotoAnchor c := rfl
    rw [e1, e2, List.filterMap_append, List.filterMap_append, hc]
    congr 1
    by_cases hp : isLoadPhotoAnchor (.elem t a c) = true
    · rw [if_pos hp, if_pos (by rw [isLoadPhotoAnchor_fixNode]; exact hp)]
      simp [List.filterMap_cons, extractOnclick_fixNode]
    · rw [if_neg hp, if_neg (by rw [isLoadPhotoAnchor_fixNode]; exact hp)]
  have hcons : ∀ x xs,
      ((collectNode isLoadPhotoAnchor (fixNode BASE_URL x)).filterMap
        extractOnclick =
       (collectNode isLoadPhotoAnchor x).filterMap extractOnclick) →
      ((collectForest isLoadPhotoAnchor (fixForest BASE_URL xs)).filterMap
        extractOnclick =
       (collectForest isLoadPhotoAnchor xs).filterMap extractOnclick) →
      (collectForest isLoadPhotoAnchor (fixForest BASE_URL (x :: xs))).filterMap
        extractOnclick =
      (collectForest isLoadPhotoAnchor (x :: xs)).filterMap extractOnclick := by
    intro x xs hx hxs
    rw [show fixForest BASE_URL (x :: xs) =
      fixNode BASE_URL x :: fixForest BASE_URL xs from rfl,
      show collectForest isLoadPhotoAnchor
        (fixNode BASE_URL x :: fixForest BASE_URL xs) =
        collectNode isLoadPhotoAnchor (fixNode BASE_URL x) ++
        collectForest isLoadPhotoAnchor (fixForest BASE_URL xs) from rfl,
      show collectForest isLoadPhotoAnchor (x :: xs) =
        collectNode isLoadPhotoAnchor x ++ collectForest isLoadPhotoAnchor xs
        from rfl,
      List.filterMap_append, List.filterMap_append, hx, hxs]
  exact ⟨html_induction _ _ helem htext hnil hcons,
    html_forest_induction _ _ helem htext hnil hcons⟩

/-- The `loadPhoto` URL list is unchanged by `fix_relative_image_urls`. -/
theorem lp_fix_root (n : Html) :
    (collectNode isLoadPhotoAnchor (fix_relative_image_urls n BASE_URL)).filterMap
      extractOnclick =
    (collectNode isLoadPhotoAnchor n).filterMap extractOnclick := by
  cases n with
  | text s => rfl
  | elem t a c =>
    rw [show fix_relative_image_urls (.elem t a c) BASE_URL =
      .elem t a (fixForest BASE_URL c) from rfl]
    have e1 : collectNode isLoadPhotoAnchor (.elem t a (fixForest BASE_URL c)) =
        (if isLoadPhotoAnchor (.elem t a c) = true then
          [.elem t a (fixForest BASE_URL c)] else []) ++
        collectForest isLoadPhotoAnchor (fixForest BASE_URL c) := rfl
    have e2 : collectNode isLoadPhotoAnchor (.elem t a c) =
        (if isLoadPhotoAnchor (.elem t a c) = true then [.elem t a c] else []) ++
        collectForest isLoadPhotoAnchor c := rfl
    rw [e1, e2, List.filterMap_append, List.filterMap_append, lp_fix_sub.2 c]
    congr 1
    by_cases hp : isLoadPhotoAnchor (.elem t a c) = true
    · rw [if_pos hp, if_pos hp]
      rfl
    · rw [if_neg hp, if_neg hp]

/-- The `loadPhoto` URL list is unchanged by the in-place document
mutation. -/
theorem lp_fixDoc :
    (∀ n : Html,
      (collectNode isLoadPhotoAnchor (fixDocNode n).2).filterMap extractOnclick =
      (collectNode isLoadPhotoAnchor n).filterMap extractOnclick) ∧
    (∀ l : List Html,
      (collectForest isLoadPhotoAnchor (fixDocForest l).2).filterMap extractOnclick =
      (collectForest isLoadPhotoAnchor l).filterMap extractOnclick) := by
  have htext : ∀ s0 : List Char,
      (collectNode isLoadPhotoAnchor (fixDocNode (.text s0)).2).filterMap
        extractOnclick =
      (collectNode isLoadPhotoAnchor (.text s0)).filterMap extractOnclick := by
    intro s0
    rfl
  have hnil :
      (collectForest isLoadPhotoAnchor (fixDocForest []).2).filterMap
        extractOnclick =
      (collectForest isLoadPhotoAnchor []).filterMap extractOnclick := rfl
  have helem : ∀ t a c,
      ((collectForest isLoadPhotoAnchor (fixDocForest c).2).filterMap
        extractOnclick =
       (collectForest isLoadPhotoAnchor c).filterMap extractOnclick) →
      (collectNode isLoadPhotoAnchor (fixDocNode (.elem t a c)).2).filterMap
        extractOnclick =
      (collectNode isLoadPhotoAnchor (.elem t a c)).filterMap extractOnclick := by
    intro t a c hc
    rw [show fixDocNode (.elem t a c) =
      (if hasIdB "DefaultLayoutDiv".toList (.elem t a c) = true then
        (true, fix_relative_image_urls (.elem t a c) BASE_URL)
      else
        (match fixDocForest c with
         | (b, c2) => (b, .elem t a c2))) from rfl]
    by_cases hid : hasIdB "DefaultLayoutDiv".toList (.elem t a c) = true
    · rw [if_pos hid]
      exact lp_fix_root (.elem t a c)
    · rw [if_neg hid]
      rcases hf : fixDocForest c with ⟨bf, c2⟩
      rw [hf] at hc
      dsimp only at hc ⊢
      have e1 : collectNode isLoadPhotoAnchor (.elem t a c2) =
          (if isLoadPhotoAnchor (.elem t a c) = true then [.elem t a c2] else []) ++
          collectForest isLoadPhotoAnchor c2 := rfl
      have e2 : collectNode isLoadPhotoAnchor (.elem t a c) =
          (if isLoadPhotoAnchor (.elem t a c) = true then [.elem t a c] else []) ++
          collectForest isLoadPhotoAnchor c := rfl
      rw [e1, e2, List.filterMap_append, List.filterMap_append, hc]
      congr 1
      by_cases hp : isLoadPhotoAnchor (.elem t a c) = true
      · rw [if_pos hp, if_pos hp]
        rfl
      · rw [if_neg hp, if_neg hp]
  have hcons : ∀ x xs,
      ((collectNode isLoadPhotoAnchor (fixDocNode x).2).filterMap extractOnclick =
       (collectNode isLoadPhotoAnchor x).filterMap extractOnclick) →
      ((collectForest isLoadPhotoAnchor (fixDocForest xs).2).filterMap
        extractOnclick =
       (collectForest isLoadPhotoAnchor xs).filterMap extractOnclick) →
      (collectForest isLoadPhotoAnchor (fixDocForest (x :: xs)).2).filterMap
        extractOnclick =
      (collectForest isLoadPhotoAnchor (x :: xs)).filterMap extractOnclick := by
    intro x xs hx hxs
    rw [show fixDocForest (x :: xs) =
      (match fixDocNode x with
       | (true, x2) => (true, x2 :: xs)
       | (false, _) =>
         match fixDocForest xs with
         | (b, xs2) => (b, x :: xs2)) from rfl]
    rcases hn : fixDocNode x with ⟨bx, x2⟩
    rw [hn] at hx
    cases bx with
    | true =>
      rw [show ((match ((true : Bool), x2) with
        | (true, x2) => (true, x2 :: xs)
        | (false, _) =>
          match fixDocForest xs with
          | (b, xs2) => (b, x :: xs2)) : Bool × List Html).2 = x2 :: xs from rfl,
        show collectForest isLoadPhotoAnchor (x2 :: xs) =
          collectNode isLoadPhotoAnchor x2 ++ collectForest isLoadPhotoAnchor xs
          from rfl,
        show collectForest isLoadPhotoAnchor (x :: xs) =
          collectNode isLoadPhotoAnchor x ++ collectForest isLoadPhotoAnchor xs
          from rfl,
        List.filterMap_append, List.filterMap_append, hx]
    | false =>
      rcases hfs : fixDocForest xs with ⟨b2, xs2⟩
      rw [hfs] at hxs
      rw [show ((match ((false : Bool), x2) with
        | (true, x2) => (true, x2 :: xs)
        | (false, _) => ((b2, x :: xs2) : Bool × List Html)) :
          Bool × List Html).2 = x :: xs2 from rfl,
        show collectForest isLoadPhotoAnchor (x :: xs2) =
          collectNode isLoadPhotoAnchor x ++ collectForest isLoadPhotoAnchor xs2
          from rfl,
        show collectForest isLoadPhotoAnchor (x :: xs) =
          collectNode isLoadPhotoAnchor x ++ collectForest isLoadPhotoAnchor xs
          from rfl,
        List.filterMap_append, List.filterMap_append, hxs]
  exact ⟨html_induction _ _ helem htext hnil hcons,
    html_forest_induction _ _ helem htext hnil hcons⟩

/-- Elements of the deduplicating fold of `extract_image_urls` come from
the initial list or from an extracted `loadPhoto` URL. -/
theorem foldl_dedup_subset (links : List Html) :
    ∀ (acc : List (List Char)) (x : List Char),
      x ∈ links.foldl (fun acc link =>
        match extractOnclick link with
        | some u => if u ∈ acc then acc else acc ++ [u]
        | none => acc) acc →
      x ∈ acc ∨ x ∈ links.filterMap extractOnclick := by
  induction links with
  | nil =>
    intro acc x h
    exact Or.inl h
  | cons link links ih =>
    intro acc x h
    rw [List.foldl_cons] at h
    rcases ih _ x h with h1 | h2
    · cases he : extractOnclick link with
      | none =>
        rw [he] at h1
        exact Or.inl h1
      | some u =>
        rw [he] at h1
        dsimp only at h1
        by_cases hin : u ∈ acc
        · rw [if_pos hin] at h1
          exact Or.inl h1
        · rw [if_neg hin] at h1
          rcases List.mem_append.mp h1 with h3 | h4
          · exact Or.inl h3
          · right
            rw [List.filterMap_cons, he]
            exact List.mem_cons.mpr (Or.inl (List.mem_singleton.mp h4))
    · right
      rw [List.filterMap_cons]
      cases he : extractOnclick link with
      | none => exact h2
      | some u => exact List.mem_cons.mpr (Or.inr h2)

-- ## Claim C1: provenance of the record's image URLs

theorem allLoadPhotoUrls_eq (doc : Html) :
    allLoadPhotoUrls doc =
    (collectNode isLoadPhotoAnchor doc).filterMap extractOnclick := rfl

/-- C1 (amended): every URL in a produced record's `image_urls` is
either absolute or carried verbatim from the input page — it is a `src`
attribute value or a `loadPhoto` onclick argument of the unmodified
document.  (Rewriting guarantees absoluteness only for `../`- and
`images/`-prefixed img sources inside the layout container; `loadPhoto`
URLs and sources of other shapes pass through unchanged.) -/
theorem claim_C1_thm (detail_url dog_name : List Char) (doc : Html) (rec : DogDetails)
    (h : fetch_dog_details detail_url dog_name doc = some rec) :
    ∀ u ∈ rec.image_urls,
      isAbsoluteUrl u = true ∨ u ∈ allSrcsNode doc ∨ u ∈ allLoadPhotoUrls doc := by
  intro u hu
  cases hl : findNode (hasIdB "DefaultLayoutDiv".toList) doc with
  | none =>
    unfold fetch_dog_details at h
    rw [hl] at h
    exact Option.noConfusion h
  | some ld =>
    unfold fetch_dog_details at h
    rw [hl] at h
    have hrec := (Option.some.inj h).symm
    have himg : rec.image_urls = extract_image_urls (fixDocNode doc).2 := by
      rw [hrec]
    rw [himg] at hu
    unfold extract_image_urls at hu
    have hstep : (fun (acc : List (List Char)) (link : Html) =>
        match getAttr (attrsOf link) "onclick".toList with
        | some o =>
          match searchCallArg loadPhotoLit o with
          | some img_url => if img_url ∈ acc then acc else acc ++ [img_url]
          | none => acc
        | none => acc) =
      (fun (acc : List (List Char)) (link : Html) =>
        match extractOnclick link with
        | some u => if u ∈ acc then acc else acc ++ [u]
        | none => acc) := by
      funext acc link
      unfold extractOnclick
      cases getAttr (attrsOf link) "onclick".toList with
      | none => rfl
      | some o =>
        cases searchCallArg loadPhotoLit o with
        | none => rfl
        | some v => rfl
    rw [hstep] at hu
    rcases foldl_dedup_subset _ _ u hu with h1 | h2
    · cases hm : findNode (hasIdB "imgAnimalPhoto".toList) (fixDocNode doc).2 with
      | none =>
        rw [hm] at h1
        exact absurd h1 (List.not_mem_nil u)
      | some main_img =>
        rw [hm] at h1
        dsimp only at h1
        cases hsrc : getAttr (attrsOf main_img) "src".toList with
        | none =>
          rw [hsrc] at h1
          exact absurd h1 (List.not_mem_nil u)
        | some s =>
          rw [hsrc] at h1
          dsimp only at h1
          by_cases hse : s.isEmpty = true
          · rw [if_pos hse] at h1
            exact absurd h1 (List.not_mem_nil u)
          · rw [if_neg hse] at h1
            have hus : u = s := List.mem_singleton.mp h1
            subst hus
            have hmem : u ∈ allSrcsNode (fixDocNode doc).2 :=
              findNode_src_mem.1 _ _ _ _ hm hsrc
            cases fixDoc_srcs_sub.1 doc u hmem with
            | inl habs => exact Or.inl habs
            | inr horig => exact Or.inr (Or.inl horig)
    · right
      right
      rw [allLoadPhotoUrls_eq, ← lp_fixDoc.1 doc]
      exact h2

/-- C1 counterexample: a produced record can carry a non-absolute image
URL — a main-photo src of a shape the fixer does not rewrite is passed
through as-is, so the claimed absoluteness invariant fails. -/
theorem claim_C1_counterexample :
    (fetch_dog_details "u".toList "Rex".toList c1doc).map
      (fun r => r.image_urls.all isAbsoluteUrl) = some false ∧
    (fetch_dog_details "u".toList "Rex".toList c1doc).map
      (fun r => r.image_urls) = some ["photo.jpg".toList] := by
  exact ⟨rfl, rfl⟩

/-- Witness for C1 on the concrete page `c1doc`: the produced URL
`photo.jpg` is not absolute, and indeed appears verbatim as a `src` in
the input page. -/
theorem claim_C1_witness :
    isAbsoluteUrl "photo.jpg".toList = true ∨
    "photo.jpg".toList ∈ allSrcsNode c1doc ∨
    "photo.jpg".toList ∈ allLoadPhotoUrls c1doc := by
  have h : fetch_dog_details "u".toList "Rex".toList c1doc = some c1rec := rfl
  have hmem : "photo.jpg".toList ∈ c1rec.image_urls := by
    show "photo.jpg".toList ∈ ["photo.jpg".toList]
    exact List.mem_singleton.mpr rfl
  exact claim_C1_thm "u".toList "Rex".toList c1doc c1rec h "photo.jpg".toList hmem

-- ## Claim C3: the per-img source rewriting

/-- The img fix maps the collected img sources pointwise by the per-src
rewrite and touches nothing else about the source list. -/
theorem imgSrcs_fix_map (b : List Char) :
    (∀ n : Html,
      (collectNode (hasTagB "img".toList) (fixNode b n)).filterMap
        (fun im => getAttr (attrsOf im) "src".toList) =
      ((collectNode (hasTagB "img".toList) n).filterMap
        (fun im => getAttr (attrsOf im) "src".toList)).map (fixedSrc b)) ∧
    (∀ l : List Html,
      (collectForest (hasTagB "img".toList) (fixForest b l)).filterMap
        (fun im => getAttr (attrsOf im) "src".toList) =
      ((collectForest (hasTagB "img".toList) l).filterMap
        (fun im => getAttr (attrsOf im) "src".toList)).map (fixedSrc b)) := by
  have htext : ∀ s0 : List Char,
      (collectNode (hasTagB "img".toList) (fixNode b (.text s0))).filterMap
        (fun im => getAttr (attrsOf im) "src".toList) =
      ((collectNode (hasTagB "img".toList) (.text s0)).filterMap
        (fun im => getAttr (attrsOf im) "src".toList)).map (fixedSrc b) := by
    intro s0
    rfl
  have hnil :
      (collectForest (hasTagB "img".toList) (fixForest b [])).filterMap
        (fun im => getAttr (attrsOf im) "src".toList) =
      ((collectForest (hasTagB "img".toList) []).filterMap
        (fun im => getAttr (attrsOf im) "src".toList)).map (fixedSrc b) := rfl
  have helem : ∀ t a c,
      ((collectForest (hasTagB "img".toList) (fixForest b c)).filterMap
        (fun im => getAttr (attrsOf im) "src".toList) =
       ((collectForest (hasTagB "img".toList) c).filterMap
        (fun im => getAttr (attrsOf im) "src".toList)).map (fixedSrc b)) →
      (collectNode (hasTagB "img".toList) (fixNode b (.elem t a c))).filterMap
        (fun im => getAttr (attrsOf im) "src".toList) =
      ((collectNode (hasTagB "img".toList) (.elem t a c)).filterMap
        (fun im => getAttr (attrsOf im) "src".toList)).map (fixedSrc b) := by
    intro t a c hc
    have e1 : collectNode (hasTagB "img".toList) (fixNode b (.elem t a c)) =
        (if hasTagB "img".toList (.elem t a c) = true then
          [fixNode b (.elem t a c)] else []) ++
        collectForest (hasTagB "img".toList) (fixForest b c) := rfl
    have e2 : collectNode (hasTagB "img".toList) (.elem t a c) =
        (if hasTagB "img".toList (.elem t a c) = true then [.elem t a c] else []) ++
        collectForest (hasTagB "img".toList) c := rfl
    rw [e1, e2, List.filterMap_append, List.filterMap_append, List.map_append, hc]
    congr 1
    by_cases hp : hasTagB "img".toList (.elem t a c) = true
    · rw [if_pos hp, if_pos hp]
      have ht : t = "img".toList := of_decide_eq_true hp
      have hattrs : attrsOf (fixNode b (.elem t a c)) = fixImgSrcAttrs b a := by
        rw [show fixNode b (.elem t a c) =
          .elem t (if t = "img".toList then fixImgSrcAttrs b a else a)
            (fixForest b c) from rfl]
        show (if t = "img".toList then fixImgSrcAttrs b a else a) = _
        rw [if_pos ht]
      have hval := getAttr_fixImgSrcAttrs_src b a
      cases hga : getAttr a "src".toList with
      | none =>
        rw [hga] at hval
        rw [List.filterMap_cons, List.filterMap_cons]
        rw [show attrsOf (Html.elem t a c) = a from rfl, hattrs, hval, hga]
        rfl
      | some s =>
        rw [hga] at hval
        rw [List.filterMap_cons, List.filterMap_cons]
        rw [show attrsOf (Html.elem t a c) = a from rfl, hattrs, hval, hga]
        rfl
    · rw [if_neg hp, if_neg hp]
      rfl

  have hcons : ∀ x xs,
      ((collectNode (hasTagB "img".toList) (fixNode b x)).filterMap
        (fun im => getAttr (attrsOf im) "src".toList) =
       ((collectNode (hasTagB "img".toList) x).filterMap
        (fun im => getAttr (attrsOf im) "src".toList)).map (fixedSrc b)) →
      ((collectForest (hasTagB "img".toList) (fixForest b xs)).filterMap
        (fun im => getAttr (attrsOf im) "src".toList) =
       ((collectForest (hasTagB "img".toList) xs).filterMap
        (fun im => getAttr (attrsOf im) "src".toList)).map (fixedSrc b)) →
      (collectForest (hasTagB "img".toList) (fixForest b (x :: xs))).filterMap
        (fun im => getAttr (attrsOf im) "src".toList) =
      ((collectForest (hasTagB "img".toList) (x :: xs)).filterMap
        (fun im => getAttr (attrsOf im) "src".toList)).map (fixedSrc b) := by
    intro x xs hx hxs
    rw [show fixForest b (x :: xs) = fixNode b x :: fixForest b xs from rfl,
      show collectForest (hasTagB "img".toList) (fixNode b x :: fixForest b xs) =
        collectNode (hasTagB "img".toList) (fixNode b x) ++
        collectForest (hasTagB "img".toList) (fixForest b xs) from rfl,
      show collectForest (hasTagB "img".toList) (x :: xs) =
        collectNode (hasTagB "img".toList) x ++
        collectForest (hasTagB "img".toList) xs from rfl,
      List.filterMap_append, List.filterMap_append, List.map_append, hx, hxs]
  exact ⟨html_induction _ _ helem htext hnil hcons,
    html_forest_induction _ _ helem htext hnil hcons⟩

/-- C3 (amended): `fix_relative_image_urls` rewrites every img source in
the container pointwise — a source beginning with `../` is rewritten by
removing every occurrence of `../` (Python `str.replace`) and prefixing
the image host; a source beginning with `images/` is prefixed with the
base URL; every other source is unchanged.  The spec's two examples
hold. -/
theorem claim_C3_thm :
    (∀ (div : Html) (b : List Char),
      imgSrcs (fix_relative_image_urls div b) =
        (imgSrcs div).map (fixedSrc b)) ∧
    (rewriteSrc BASE_URL "../images/dog5.jpg".toList =
      "https://ws.petango.com/images/dog5.jpg".toList) ∧
    (rewriteSrc BASE_URL "images/dog5.jpg".toList =
      BASE_URL ++ "images/dog5.jpg".toList) ∧
    (∀ (b s : List Char), isPrefixB "../".toList s = false →
      isPrefixB "images/".toList s = false → rewriteSrc b s = s) ∧
    (∀ (b s : List Char), isPrefixB "../".toList s = true →
      rewriteSrc b s =
        "https://ws.petango.com/".toList ++ replaceAll "../".toList [] s) := by
  refine ⟨?_, rfl, rfl, ?_, ?_⟩
  · intro div b
    cases div with
    | text s0 => rfl
    | elem t a c =>
      show (collectForest (hasTagB "img".toList) (fixForest b c)).filterMap
          (fun im => getAttr (attrsOf im) "src".toList) = _
      rw [(imgSrcs_fix_map b).2 c]
      rfl
  · intro b s h1 h2
    unfold rewriteSrc
    rw [if_neg (show ¬ isPrefixB "../".toList s = true by
        rw [h1]; exact Bool.false_ne_true),
      if_neg (show ¬ isPrefixB "images/".toList s = true by
        rw [h2]; exact Bool.false_ne_true)]
  · intro b s h1
    unfold rewriteSrc
    rw [if_pos h1]

/-- C3 counterexample: on the source `../../a.jpg` the code removes both
`../` markers (`str.replace` replaces every occurrence), so the result
differs from the claim's "strip the leading marker" description. -/
theorem claim_C3_counterexample :
    imgSrcs (fix_relative_image_urls c3div BASE_URL) =
      ["https://ws.petango.com/a.jpg".toList] ∧
    imgSrcs (fix_relative_image_urls c3div BASE_URL) ≠
      ["https://ws.petango.com/".toList ++ List.drop 3 "../../a.jpg".toList] := by
  constructor
  · rfl
  · intro h
    cases h

/-- Witness for C3: the container with an img whose src holds two `../`
markers is mapped pointwise; an absolute source is unchanged; the
`../`-prefixed source is rewritten with every marker removed. -/
theorem claim_C3_witness :
    imgSrcs (fix_relative_image_urls c3div BASE_URL) =
      (imgSrcs c3div).map (fixedSrc BASE_URL) ∧
    rewriteSrc BASE_URL "https://already.absolute/x.png".toList =
      "https://already.absolute/x.png".toList ∧
    rewriteSrc BASE_URL "../../a.jpg".toList =
      "https://ws.petango.com/".toList ++
        replaceAll "../".toList [] "../../a.jpg".toList := by
  refine ⟨claim_C3_thm.1 c3div BASE_URL, ?_, ?_⟩
  · exact claim_C3_thm.2.2.2.1 BASE_URL _ (by decide) (by decide)
  · exact claim_C3_thm.2.2.2.2 BASE_URL _ (by decide)
